import Mathlib

/- A verification development for the isld data-plane primitives:
   the unchained hash table (sch.rs) and the lock-free bounded queue (nblfq.rs).

   Machine integers are modelled as Nat with explicit reduction modulo 2^w at the
   points where the Rust code can overflow or truncate.  Stateful, fork-join
   parallel code is modelled by its sequential determinization: the build phases
   process the partition buffers in partition order (the workers of a phase write
   to disjoint memory, so every interleaving computes this same result). -/

namespace Sch

/- ===== Bloom filter ===== -/

def BLOOM_CHUNK_0 : List Nat :=
[
  15, 23, 27, 29, 30, 39, 43, 45, 46, 51, 53, 54, 57, 58, 60, 71,
  75, 77, 78, 83, 85, 86, 89, 90, 92, 99, 101, 102, 105, 106, 108, 113,
  114, 116, 120, 135, 139, 141, 142, 147, 149, 150, 153, 154, 156, 163, 165, 166,
  169, 170, 172, 177, 178, 180, 184, 195, 197, 198, 201, 202, 204, 209, 210, 212,
  216, 225, 226, 228, 232, 240, 263, 267, 269, 270, 275, 277, 278, 281, 282, 284,
  291, 293, 294, 297, 298, 300, 305, 306, 308, 312, 323, 325, 326, 329, 330, 332,
  337, 338, 340, 344, 353, 354, 356, 360, 368, 387, 389, 390, 393, 394, 396, 401,
  402, 404, 408, 417, 418, 420, 424, 432, 449, 450, 452, 456, 464, 480, 519, 523]


def BLOOM_CHUNK_1 : List Nat :=
[
  525, 526, 531, 533, 534, 537, 538, 540, 547, 549, 550, 553, 554, 556, 561, 562,
  564, 568, 579, 581, 582, 585, 586, 588, 593, 594, 596, 600, 609, 610, 612, 616,
  624, 643, 645, 646, 649, 650, 652, 657, 658, 660, 664, 673, 674, 676, 680, 688,
  705, 706, 708, 712, 720, 736, 771, 773, 774, 777, 778, 780, 785, 786, 788, 792,
  801, 802, 804, 808, 816, 833, 834, 836, 840, 848, 864, 897, 898, 900, 904, 912,
  928, 960, 1031, 1035, 1037, 1038, 1043, 1045, 1046, 1049, 1050, 1052, 1059, 1061, 1062, 1065,
  1066, 1068, 1073, 1074, 1076, 1080, 1091, 1093, 1094, 1097, 1098, 1100, 1105, 1106, 1108, 1112,
  1121, 1122, 1124, 1128, 1136, 1155, 1157, 1158, 1161, 1162, 1164, 1169, 1170, 1172, 1176, 1185]


def BLOOM_CHUNK_2 : List Nat :=
[
  1186, 1188, 1192, 1200, 1217, 1218, 1220, 1224, 1232, 1248, 1283, 1285, 1286, 1289, 1290, 1292,
  1297, 1298, 1300, 1304, 1313, 1314, 1316, 1320, 1328, 1345, 1346, 1348, 1352, 1360, 1376, 1409,
  1410, 1412, 1416, 1424, 1440, 1472, 1539, 1541, 1542, 1545, 1546, 1548, 1553, 1554, 1556, 1560,
  1569, 1570, 1572, 1576, 1584, 1601, 1602, 1604, 1608, 1616, 1632, 1665, 1666, 1668, 1672, 1680,
  1696, 1728, 1793, 1794, 1796, 1800, 1808, 1824, 1856, 1920, 2055, 2059, 2061, 2062, 2067, 2069,
  2070, 2073, 2074, 2076, 2083, 2085, 2086, 2089, 2090, 2092, 2097, 2098, 2100, 2104, 2115, 2117,
  2118, 2121, 2122, 2124, 2129, 2130, 2132, 2136, 2145, 2146, 2148, 2152, 2160, 2179, 2181, 2182,
  2185, 2186, 2188, 2193, 2194, 2196, 2200, 2209, 2210, 2212, 2216, 2224, 2241, 2242, 2244, 2248]


def BLOOM_CHUNK_3 : List Nat :=
[
  2256, 2272, 2307, 2309, 2310, 2313, 2314, 2316, 2321, 2322, 2324, 2328, 2337, 2338, 2340, 2344,
  2352, 2369, 2370, 2372, 2376, 2384, 2400, 2433, 2434, 2436, 2440, 2448, 2464, 2496, 2563, 2565,
  2566, 2569, 2570, 2572, 2577, 2578, 2580, 2584, 2593, 2594, 2596, 2600, 2608, 2625, 2626, 2628,
  2632, 2640, 2656, 2689, 2690, 2692, 2696, 2704, 2720, 2752, 2817, 2818, 2820, 2824, 2832, 2848,
  2880, 2944, 3075, 3077, 3078, 3081, 3082, 3084, 3089, 3090, 3092, 3096, 3105, 3106, 3108, 3112,
  3120, 3137, 3138, 3140, 3144, 3152, 3168, 3201, 3202, 3204, 3208, 3216, 3232, 3264, 3329, 3330,
  3332, 3336, 3344, 3360, 3392, 3456, 3585, 3586, 3588, 3592, 3600, 3616, 3648, 3712, 3840, 4103,
  4107, 4109, 4110, 4115, 4117, 4118, 4121, 4122, 4124, 4131, 4133, 4134, 4137, 4138, 4140, 4145]


def BLOOM_CHUNK_4 : List Nat :=
[
  4146, 4148, 4152, 4163, 4165, 4166, 4169, 4170, 4172, 4177, 4178, 4180, 4184, 4193, 4194, 4196,
  4200, 4208, 4227, 4229, 4230, 4233, 4234, 4236, 4241, 4242, 4244, 4248, 4257, 4258, 4260, 4264,
  4272, 4289, 4290, 4292, 4296, 4304, 4320, 4355, 4357, 4358, 4361, 4362, 4364, 4369, 4370, 4372,
  4376, 4385, 4386, 4388, 4392, 4400, 4417, 4418, 4420, 4424, 4432, 4448, 4481, 4482, 4484, 4488,
  4496, 4512, 4544, 4611, 4613, 4614, 4617, 4618, 4620, 4625, 4626, 4628, 4632, 4641, 4642, 4644,
  4648, 4656, 4673, 4674, 4676, 4680, 4688, 4704, 4737, 4738, 4740, 4744, 4752, 4768, 4800, 4865,
  4866, 4868, 4872, 4880, 4896, 4928, 4992, 5123, 5125, 5126, 5129, 5130, 5132, 5137, 5138, 5140,
  5144, 5153, 5154, 5156, 5160, 5168, 5185, 5186, 5188, 5192, 5200, 5216, 5249, 5250, 5252, 5256]


def BLOOM_CHUNK_5 : List Nat :=
[
  5264, 5280, 5312, 5377, 5378, 5380, 5384, 5392, 5408, 5440, 5504, 5633, 5634, 5636, 5640, 5648,
  5664, 5696, 5760, 5888, 6147, 6149, 6150, 6153, 6154, 6156, 6161, 6162, 6164, 6168, 6177, 6178,
  6180, 6184, 6192, 6209, 6210, 6212, 6216, 6224, 6240, 6273, 6274, 6276, 6280, 6288, 6304, 6336,
  6401, 6402, 6404, 6408, 6416, 6432, 6464, 6528, 6657, 6658, 6660, 6664, 6672, 6688, 6720, 6784,
  6912, 7169, 7170, 7172, 7176, 7184, 7200, 7232, 7296, 7424, 7680, 8199, 8203, 8205, 8206, 8211,
  8213, 8214, 8217, 8218, 8220, 8227, 8229, 8230, 8233, 8234, 8236, 8241, 8242, 8244, 8248, 8259,
  8261, 8262, 8265, 8266, 8268, 8273, 8274, 8276, 8280, 8289, 8290, 8292, 8296, 8304, 8323, 8325,
  8326, 8329, 8330, 8332, 8337, 8338, 8340, 8344, 8353, 8354, 8356, 8360, 8368, 8385, 8386, 8388]


def BLOOM_CHUNK_6 : List Nat :=
[
  8392, 8400, 8416, 8451, 8453, 8454, 8457, 8458, 8460, 8465, 8466, 8468, 8472, 8481, 8482, 8484,
  8488, 8496, 8513, 8514, 8516, 8520, 8528, 8544, 8577, 8578, 8580, 8584, 8592, 8608, 8640, 8707,
  8709, 8710, 8713, 8714, 8716, 8721, 8722, 8724, 8728, 8737, 8738, 8740, 8744, 8752, 8769, 8770,
  8772, 8776, 8784, 8800, 8833, 8834, 8836, 8840, 8848, 8864, 8896, 8961, 8962, 8964, 8968, 8976,
  8992, 9024, 9088, 9219, 9221, 9222, 9225, 9226, 9228, 9233, 9234, 9236, 9240, 9249, 9250, 9252,
  9256, 9264, 9281, 9282, 9284, 9288, 9296, 9312, 9345, 9346, 9348, 9352, 9360, 9376, 9408, 9473,
  9474, 9476, 9480, 9488, 9504, 9536, 9600, 9729, 9730, 9732, 9736, 9744, 9760, 9792, 9856, 9984,
  10243, 10245, 10246, 10249, 10250, 10252, 10257, 10258, 10260, 10264, 10273, 10274, 10276, 10280, 10288, 10305]


def BLOOM_CHUNK_7 : List Nat :=
[
  10306, 10308, 10312, 10320, 10336, 10369, 10370, 10372, 10376, 10384, 10400, 10432, 10497, 10498, 10500, 10504,
  10512, 10528, 10560, 10624, 10753, 10754, 10756, 10760, 10768, 10784, 10816, 10880, 11008, 11265, 11266, 11268,
  11272, 11280, 11296, 11328, 11392, 11520, 11776, 12291, 12293, 12294, 12297, 12298, 12300, 12305, 12306, 12308,
  12312, 12321, 12322, 12324, 12328, 12336, 12353, 12354, 12356, 12360, 12368, 12384, 12417, 12418, 12420, 12424,
  12432, 12448, 12480, 12545, 12546, 12548, 12552, 12560, 12576, 12608, 12672, 12801, 12802, 12804, 12808, 12816,
  12832, 12864, 12928, 13056, 13313, 13314, 13316, 13320, 13328, 13344, 13376, 13440, 13568, 13824, 14337, 14338,
  14340, 14344, 14352, 14368, 14400, 14464, 14592, 14848, 15360, 16391, 16395, 16397, 16398, 16403, 16405, 16406,
  16409, 16410, 16412, 16419, 16421, 16422, 16425, 16426, 16428, 16433, 16434, 16436, 16440, 16451, 16453, 16454]


def BLOOM_CHUNK_8 : List Nat :=
[
  16457, 16458, 16460, 16465, 16466, 16468, 16472, 16481, 16482, 16484, 16488, 16496, 16515, 16517, 16518, 16521,
  16522, 16524, 16529, 16530, 16532, 16536, 16545, 16546, 16548, 16552, 16560, 16577, 16578, 16580, 16584, 16592,
  16608, 16643, 16645, 16646, 16649, 16650, 16652, 16657, 16658, 16660, 16664, 16673, 16674, 16676, 16680, 16688,
  16705, 16706, 16708, 16712, 16720, 16736, 16769, 16770, 16772, 16776, 16784, 16800, 16832, 16899, 16901, 16902,
  16905, 16906, 16908, 16913, 16914, 16916, 16920, 16929, 16930, 16932, 16936, 16944, 16961, 16962, 16964, 16968,
  16976, 16992, 17025, 17026, 17028, 17032, 17040, 17056, 17088, 17153, 17154, 17156, 17160, 17168, 17184, 17216,
  17280, 17411, 17413, 17414, 17417, 17418, 17420, 17425, 17426, 17428, 17432, 17441, 17442, 17444, 17448, 17456,
  17473, 17474, 17476, 17480, 17488, 17504, 17537, 17538, 17540, 17544, 17552, 17568, 17600, 17665, 17666, 17668]


def BLOOM_CHUNK_9 : List Nat :=
[
  17672, 17680, 17696, 17728, 17792, 17921, 17922, 17924, 17928, 17936, 17952, 17984, 18048, 18176, 18435, 18437,
  18438, 18441, 18442, 18444, 18449, 18450, 18452, 18456, 18465, 18466, 18468, 18472, 18480, 18497, 18498, 18500,
  18504, 18512, 18528, 18561, 18562, 18564, 18568, 18576, 18592, 18624, 18689, 18690, 18692, 18696, 18704, 18720,
  18752, 18816, 18945, 18946, 18948, 18952, 18960, 18976, 19008, 19072, 19200, 19457, 19458, 19460, 19464, 19472,
  19488, 19520, 19584, 19712, 19968, 20483, 20485, 20486, 20489, 20490, 20492, 20497, 20498, 20500, 20504, 20513,
  20514, 20516, 20520, 20528, 20545, 20546, 20548, 20552, 20560, 20576, 20609, 20610, 20612, 20616, 20624, 20640,
  20672, 20737, 20738, 20740, 20744, 20752, 20768, 20800, 20864, 20993, 20994, 20996, 21000, 21008, 21024, 21056,
  21120, 21248, 21505, 21506, 21508, 21512, 21520, 21536, 21568, 21632, 21760, 22016, 22529, 22530, 22532, 22536]


def BLOOM_CHUNK_10 : List Nat :=
[
  22544, 22560, 22592, 22656, 22784, 23040, 23552, 24579, 24581, 24582, 24585, 24586, 24588, 24593, 24594, 24596,
  24600, 24609, 24610, 24612, 24616, 24624, 24641, 24642, 24644, 24648, 24656, 24672, 24705, 24706, 24708, 24712,
  24720, 24736, 24768, 24833, 24834, 24836, 24840, 24848, 24864, 24896, 24960, 25089, 25090, 25092, 25096, 25104,
  25120, 25152, 25216, 25344, 25601, 25602, 25604, 25608, 25616, 25632, 25664, 25728, 25856, 26112, 26625, 26626,
  26628, 26632, 26640, 26656, 26688, 26752, 26880, 27136, 27648, 28673, 28674, 28676, 28680, 28688, 28704, 28736,
  28800, 28928, 29184, 29696, 30720, 32775, 32779, 32781, 32782, 32787, 32789, 32790, 32793, 32794, 32796, 32803,
  32805, 32806, 32809, 32810, 32812, 32817, 32818, 32820, 32824, 32835, 32837, 32838, 32841, 32842, 32844, 32849,
  32850, 32852, 32856, 32865, 32866, 32868, 32872, 32880, 32899, 32901, 32902, 32905, 32906, 32908, 32913, 32914]


def BLOOM_CHUNK_11 : List Nat :=
[
  32916, 32920, 32929, 32930, 32932, 32936, 32944, 32961, 32962, 32964, 32968, 32976, 32992, 33027, 33029, 33030,
  33033, 33034, 33036, 33041, 33042, 33044, 33048, 33057, 33058, 33060, 33064, 33072, 33089, 33090, 33092, 33096,
  33104, 33120, 33153, 33154, 33156, 33160, 33168, 33184, 33216, 33283, 33285, 33286, 33289, 33290, 33292, 33297,
  33298, 33300, 33304, 33313, 33314, 33316, 33320, 33328, 33345, 33346, 33348, 33352, 33360, 33376, 33409, 33410,
  33412, 33416, 33424, 33440, 33472, 33537, 33538, 33540, 33544, 33552, 33568, 33600, 33664, 33795, 33797, 33798,
  33801, 33802, 33804, 33809, 33810, 33812, 33816, 33825, 33826, 33828, 33832, 33840, 33857, 33858, 33860, 33864,
  33872, 33888, 33921, 33922, 33924, 33928, 33936, 33952, 33984, 34049, 34050, 34052, 34056, 34064, 34080, 34112,
  34176, 34305, 34306, 34308, 34312, 34320, 34336, 34368, 34432, 34560, 34819, 34821, 34822, 34825, 34826, 34828]


def BLOOM_CHUNK_12 : List Nat :=
[
  34833, 34834, 34836, 34840, 34849, 34850, 34852, 34856, 34864, 34881, 34882, 34884, 34888, 34896, 34912, 34945,
  34946, 34948, 34952, 34960, 34976, 35008, 35073, 35074, 35076, 35080, 35088, 35104, 35136, 35200, 35329, 35330,
  35332, 35336, 35344, 35360, 35392, 35456, 35584, 35841, 35842, 35844, 35848, 35856, 35872, 35904, 35968, 36096,
  36352, 36867, 36869, 36870, 36873, 36874, 36876, 36881, 36882, 36884, 36888, 36897, 36898, 36900, 36904, 36912,
  36929, 36930, 36932, 36936, 36944, 36960, 36993, 36994, 36996, 37000, 37008, 37024, 37056, 37121, 37122, 37124,
  37128, 37136, 37152, 37184, 37248, 37377, 37378, 37380, 37384, 37392, 37408, 37440, 37504, 37632, 37889, 37890,
  37892, 37896, 37904, 37920, 37952, 38016, 38144, 38400, 38913, 38914, 38916, 38920, 38928, 38944, 38976, 39040,
  39168, 39424, 39936, 40963, 40965, 40966, 40969, 40970, 40972, 40977, 40978, 40980, 40984, 40993, 40994, 40996]


def BLOOM_CHUNK_13 : List Nat :=
[
  41000, 41008, 41025, 41026, 41028, 41032, 41040, 41056, 41089, 41090, 41092, 41096, 41104, 41120, 41152, 41217,
  41218, 41220, 41224, 41232, 41248, 41280, 41344, 41473, 41474, 41476, 41480, 41488, 41504, 41536, 41600, 41728,
  41985, 41986, 41988, 41992, 42000, 42016, 42048, 42112, 42240, 42496, 43009, 43010, 43012, 43016, 43024, 43040,
  43072, 43136, 43264, 43520, 44032, 45057, 45058, 45060, 45064, 45072, 45088, 45120, 45184, 45312, 45568, 46080,
  47104, 49155, 49157, 49158, 49161, 49162, 49164, 49169, 49170, 49172, 49176, 49185, 49186, 49188, 49192, 49200,
  49217, 49218, 49220, 49224, 49232, 49248, 49281, 49282, 49284, 49288, 49296, 49312, 49344, 49409, 49410, 49412,
  49416, 49424, 49440, 49472, 49536, 49665, 49666, 49668, 49672, 49680, 49696, 49728, 49792, 49920, 50177, 50178,
  50180, 50184, 50192, 50208, 50240, 50304, 50432, 50688, 51201, 51202, 51204, 51208, 51216, 51232, 51264, 51328]


def BLOOM_CHUNK_14 : List Nat :=
[
  51456, 51712, 52224, 53249, 53250, 53252, 53256, 53264, 53280, 53312, 53376, 53504, 53760, 54272, 55296, 57345,
  57346, 57348, 57352, 57360, 57376, 57408, 57472, 57600, 57856, 58368, 59392, 61440, 30, 43, 106, 135,
  142, 163, 267, 278, 281, 389, 449, 523, 540, 547, 564, 593, 609, 610, 612, 649,
  650, 774, 780, 898, 1050, 1052, 1094, 1097, 1108, 1121, 1200, 1220, 1232, 1314, 1320, 1412,
  1424, 1542, 1569, 1576, 1824, 2098, 2104, 2145, 2148, 2185, 2188, 2370, 2625, 2626, 2690, 2752,
  3089, 3152, 3204, 3344, 4107, 4115, 4131, 4152, 4194, 4227, 4236, 4241, 4257, 4260, 4355, 4400,
  4484, 4544, 4614, 4617, 4648, 4737, 4872, 4880, 5125, 5186, 5216, 5256, 6149, 6154, 6161, 6164,
  6180, 6276, 6528, 6658, 8203, 8205, 8213, 8218, 8266, 8280, 8400, 8416, 8451, 8453, 8457, 8721]


def BLOOM_CHUNK_15 : List Nat :=
[
  8738, 8834, 8840, 9226, 9264, 9282, 9346, 9504, 9536, 9736, 10264, 10305, 10400, 12297, 12548, 12576,
  12804, 13314, 13328, 13376, 14368, 16397, 16409, 16466, 16472, 16481, 16488, 16517, 16545, 16546, 16584, 16646,
  16650, 16658, 16936, 17056, 17474, 17488, 17668, 17922, 17924, 18576, 18704, 18976, 19460, 20486, 20513, 20752,
  20768, 24581, 24594, 24596, 24624, 24896, 25092, 25120, 25601, 26628, 27136, 32775, 32782, 32787, 32805, 32812,
  32818, 32842, 32850, 32872, 32880, 32901, 32902, 32913, 32914, 32962, 32976, 32992, 33072, 33289, 33328, 33410,
  33412, 33424, 33540, 33600, 33795, 33809, 33816, 33840, 33888, 33936, 34056, 34112, 34819, 34828, 34836, 36881,
  36884, 36904, 36930, 37152, 37380, 38914, 38944, 39424, 40963, 40977, 41025, 41090, 41120, 41152, 41480, 42240,
  43016, 46080, 49192, 49200, 49440, 49472, 49668, 50178, 51204, 51216, 51456, 53250, 57345, 57352, 57376, 57856]

/-- The static BLOOM_TAGS table: 1820 distinct popcount-4 masks followed by 228
padding duplicates, transcribed from the source.  The single static array is
written as 16 concatenated blocks of 128 entries so that proofs and witness
evaluations over it stay within the recursion limits of the checker; the
concatenation is elementwise identical to the source array. -/
def BLOOM_TAGS : List Nat :=
  BLOOM_CHUNK_0 ++ BLOOM_CHUNK_1 ++ BLOOM_CHUNK_2 ++ BLOOM_CHUNK_3 ++ BLOOM_CHUNK_4 ++ BLOOM_CHUNK_5 ++ BLOOM_CHUNK_6 ++ BLOOM_CHUNK_7 ++ BLOOM_CHUNK_8 ++ BLOOM_CHUNK_9 ++ BLOOM_CHUNK_10 ++ BLOOM_CHUNK_11 ++ BLOOM_CHUNK_12 ++ BLOOM_CHUNK_13 ++ BLOOM_CHUNK_14 ++ BLOOM_CHUNK_15

/-- bloom_get_tag: index the tag table with the top 11 bits of the 32-bit filter hash. -/
def bloom_get_tag (hash : Nat) : Nat := BLOOM_TAGS.getD (hash >>> (32 - 11)) 0

/-- bloom_check_tag: all bits of tag present in entry. -/
def bloom_check_tag (tag entry : Nat) : Bool := entry &&& tag == tag

/- ===== Hash ===== -/

structure HashPair where
  slot : Nat
  filter : Nat
deriving DecidableEq

def FIBONACCI : Nat := 11400714819323198485

/-- HashPair::hash: 64-bit wrapping multiply by the Fibonacci constant;
slot is the full 64-bit product, filter its low 32 bits. -/
def HashPair.hash (key : Nat) : HashPair :=
  let v := key * FIBONACCI % 2 ^ 64
  { slot := v, filter := v % 2 ^ 32 }

/- ===== Directory entries ===== -/

/-- A DirectoryEntry is a packed u64: bits [63:16] byte offset, bits [15:0] bloom. -/
def DirectoryEntry.EMPTY : Nat := 0

def DirectoryEntry.new (offset bloom : Nat) : Nat := (offset <<< 16 ||| bloom) % 2 ^ 64

def DirectoryEntry.offset (e : Nat) : Nat := e >>> 16

def DirectoryEntry.bloom (e : Nat) : Nat := e % 2 ^ 16

def DirectoryEntry.with_tag (e tag : Nat) : Nat := e ||| tag % 2 ^ 16

def DirectoryEntry.add_offset (e byte_delta : Nat) : Nat :=
  (e + byte_delta <<< 16 % 2 ^ 64) % 2 ^ 64

/- ===== Table sizing ===== -/

/-- Doubling loop computing the smallest power of two that is at least n; the
fuel argument only bounds the number of doublings (n doublings always suffice).
This is usize::next_power_of_two in its non-overflowing range; the sizing
theorems restrict to targets at most 2^63, where the Rust function neither
panics nor wraps to 0. -/
def next_power_of_two_go (n : Nat) : Nat -> Nat -> Nat
  | 0, power => power
  | fuel + 1, power => if power < n then next_power_of_two_go n fuel (power * 2) else power

def next_power_of_two (n : Nat) : Nat := next_power_of_two_go n n 1

/-- u64::trailing_zeros, computed structurally with fuel 64 (returns 64 at 0). -/
def trailing_zeros_go : Nat -> Nat -> Nat
  | 0, _ => 0
  | fuel + 1, n => if n % 2 = 0 then trailing_zeros_go fuel (n / 2) + 1 else 0

def trailing_zeros (n : Nat) : Nat := trailing_zeros_go 64 (n % 2 ^ 64)

/-- compute_table_params: directory size (power of two, at least 16, sized from
n + n/8) and the shift used for slot selection. -/
def compute_table_params (num_tuples : Nat) : Nat × Nat :=
  let min_size := 16
  let target := max (num_tuples + num_tuples / 8) min_size
  let table_size := next_power_of_two target
  let shift := 64 - trailing_zeros table_size
  (table_size, shift)

end Sch

namespace Sch

/- ===== Tuples, storage, table =====

Tuple storage is modelled at u64-word granularity: a collector buffer is a list
of tuples (each tuple is `stride` bytes in the source: the key as a u64 followed
by the payload words), and the flat tuple_storage array is a list of u64 words.
Byte offsets are kept exactly as in the source; an access at byte offset `pos`
reads or writes word `pos / 8`.  Every access the source performs is a whole
aligned u64 (stride is a multiple of 8 and all cursors are multiples of the
stride), so this is a faithful view of the byte array. -/

structure Tuple where
  key : Nat
  payload : List Nat
deriving DecidableEq

/-- The `stride` bytes of one tuple, as stride/8 words: the key zero-extended
to u64, then the payload words. -/
def Tuple.words (t : Tuple) : List Nat := t.key :: t.payload

structure UnchainedHashTable where
  directory : List Nat
  tuple_storage : List Nat
  shift : Nat
  tuple_stride : Nat
deriving DecidableEq

def UnchainedHashTable.empty (tuple_stride : Nat) : UnchainedHashTable :=
  { directory := List.replicate ((compute_table_params 0).1 + 1) DirectoryEntry.EMPTY
    tuple_storage := []
    shift := (compute_table_params 0).2
    tuple_stride := tuple_stride }

def slice_words (storage : List Nat) (w fields : Nat) : List Nat :=
  (List.range fields).map (fun j => storage.getD (w + j) 0)

/-- The probe scan loop: `pos` starts at `start` and advances by `stride` while
`pos < stop`, so the loop body runs `(stop - start + (stride - 1)) / stride`
times; iteration i reads the u64 at byte offset `start + i * stride` and, on a
key match, hands the callback the slice of `fields` words starting there. -/
def scan_slot (storage : List Nat) (stride key fields start count : Nat) :
    List (List Nat) :=
  (List.range count).filterMap (fun i =>
    let pos := start + i * stride
    if storage.getD (pos / 8) 0 = key then some (slice_words storage (pos / 8) fields)
    else none)

/-- UnchainedHashTable::probe, returning the list of slices handed to the
callback, in call order (the source's bool return value is bloom_check). -/
def UnchainedHashTable.probe (t : UnchainedHashTable) (key : Nat) : List (List Nat) :=
  let h := HashPair.hash key
  let slot := h.slot >>> t.shift
  let entry := t.directory.getD (slot + 1) 0
  let tag := bloom_get_tag h.filter
  if bloom_check_tag tag (DirectoryEntry.bloom entry) = false then []
  else
    let start := DirectoryEntry.offset (t.directory.getD slot 0)
    let stop := DirectoryEntry.offset entry
    scan_slot t.tuple_storage t.tuple_stride key (t.tuple_stride / 8) start
      ((stop - start + (t.tuple_stride - 1)) / t.tuple_stride)

/-- UnchainedHashTable::bloom_check. -/
def UnchainedHashTable.bloom_check (t : UnchainedHashTable) (key : Nat) : Bool :=
  let h := HashPair.hash key
  let slot := h.slot >>> t.shift
  let entry := t.directory.getD (slot + 1) 0
  bloom_check_tag (bloom_get_tag h.filter) (DirectoryEntry.bloom entry)

/- ===== Collectors ===== -/

structure BuildConfig where
  num_partitions_shift : Nat
  tuple_stride : Nat
deriving DecidableEq

def BuildConfig.num_partitions (c : BuildConfig) : Nat := 1 <<< c.num_partitions_shift

def BuildConfig.partition_shift (c : BuildConfig) : Nat := 64 - c.num_partitions_shift

structure LocalCollector where
  buffers : List (List Tuple)
  tuple_count : Nat
  partition_shift : Nat
  tuple_stride : Nat
deriving DecidableEq

def LocalCollector.new (config : BuildConfig) : LocalCollector :=
  { buffers := List.replicate config.num_partitions []
    tuple_count := 0
    partition_shift := config.partition_shift
    tuple_stride := config.tuple_stride }

/-- LocalCollector::insert: append the stride bytes of the tuple to the buffer
of the partition selected by the high hash bits. -/
def LocalCollector.insert (c : LocalCollector) (key : Nat) (payload : List Nat) :
    LocalCollector :=
  let h := HashPair.hash key
  let partition := h.slot >>> c.partition_shift
  { c with
    buffers := c.buffers.set partition
      (c.buffers.getD partition [] ++ [{ key := key, payload := payload }])
    tuple_count := c.tuple_count + 1 }

/-- A collector built by a sequence of inserts starting from LocalCollector::new. -/
def collector_of (config : BuildConfig) (inserts : List (Nat × List Nat)) : LocalCollector :=
  inserts.foldl (fun c kp => c.insert kp.1 kp.2) (LocalCollector.new config)

/- ===== Three-phase build ===== -/

def slot_of (shift : Nat) (t : Tuple) : Nat := (HashPair.hash t.key).slot >>> shift

def tag_of (t : Tuple) : Nat := bloom_get_tag (HashPair.hash t.key).filter

/-- Phase 1: per tuple, add stride to the offset field of directory[slot+1] and
OR in the bloom tag (sequential determinization of the per-partition workers). -/
def build_phase1 (stride shift : Nat) (dir : List Nat) (data : List Tuple) : List Nat :=
  data.foldl (fun d t =>
    d.set (slot_of shift t + 1)
      (DirectoryEntry.with_tag
        (DirectoryEntry.add_offset (d.getD (slot_of shift t + 1) 0) stride)
        (tag_of t))) dir

/-- Phase 2 running total: entry i becomes new(cumulative, bloom entry i) and
cumulative advances by the old offset field. -/
def build_phase2_go (cumulative : Nat) : List Nat → List Nat
  | [] => []
  | e :: rest =>
    DirectoryEntry.new cumulative (DirectoryEntry.bloom e)
      :: build_phase2_go (cumulative + DirectoryEntry.offset e) rest

/-- Phase 2: exclusive prefix sum over directory entries 1..N (entry 0 untouched). -/
def build_phase2 : List Nat → List Nat
  | [] => []
  | e0 :: rest => e0 :: build_phase2_go 0 rest

/-- Overwrite the words of `st` starting at word index `w`. -/
def set_words : List Nat → Nat → List Nat → List Nat
  | st, _, [] => st
  | st, w, x :: xs => set_words (st.set w x) (w + 1) xs

/-- Phase 3: per tuple, copy its stride bytes to the byte cursor held in
directory[slot+1] and advance that cursor by stride. -/
def build_phase3 (stride shift : Nat) (init : List Nat × List Nat) (data : List Tuple) :
    List Nat × List Nat :=
  data.foldl (fun state t =>
    let entry := state.1.getD (slot_of shift t + 1) 0
    (state.1.set (slot_of shift t + 1) (DirectoryEntry.add_offset entry stride),
     set_words state.2 (DirectoryEntry.offset entry / 8) t.words)) init

/-- The merged per-partition buffers: effective partition ep concatenates the
original partitions ep*merge_factor .. (ep+1)*merge_factor across all collectors. -/
def merge_partitions (collectors : List LocalCollector)
    (num_partitions merge_factor : Nat) : List (List Tuple) :=
  (List.range num_partitions).map (fun ep =>
    ((List.range' (ep * merge_factor) merge_factor).map (fun origp =>
      (collectors.map (fun c => c.buffers.getD origp [])).flatten)).flatten)

/-- build: merge collector buffers, then the three phases (phases 1 and 3 are
sequential determinizations of the fork-join workers, which write to disjoint
slots and disjoint storage regions). -/
def build (collectors : List LocalCollector) (config : BuildConfig) :
    UnchainedHashTable :=
  let total_tuples := (collectors.map LocalCollector.tuple_count).sum
  let stride := config.tuple_stride
  if total_tuples = 0 then UnchainedHashTable.empty stride else
  let table_size := (compute_table_params total_tuples).1
  let shift := (compute_table_params total_tuples).2
  let collector_partitions := config.num_partitions
  let num_partitions := min collector_partitions table_size
  let merge_factor := collector_partitions / num_partitions
  let data := (merge_partitions collectors num_partitions merge_factor).flatten
  let directory := List.replicate (table_size + 1) DirectoryEntry.EMPTY
  let tuple_storage := List.replicate (total_tuples * stride / 8) 0
  let dir2 := build_phase2 (build_phase1 stride shift directory data)
  let fin := build_phase3 stride shift (dir2, tuple_storage) data
  { directory := fin.1
    tuple_storage := fin.2
    shift := shift
    tuple_stride := stride }

/- ===== Per-slot bookkeeping ===== -/

def slot_count (shift : Nat) (data : List Tuple) (sl : Nat) : Nat :=
  (data.filter (fun t => slot_of shift t == sl)).length

def bloom_or (shift : Nat) (data : List Tuple) (sl : Nat) : Nat :=
  ((data.filter (fun t => slot_of shift t == sl)).map tag_of).foldl (fun x y => x ||| y) 0

def count_below (shift : Nat) (data : List Tuple) (sl : Nat) : Nat :=
  (data.filter (fun t => decide (slot_of shift t < sl))).length

def group_words (shift : Nat) (data : List Tuple) (sl : Nat) : List Nat :=
  ((data.filter (fun t => slot_of shift t == sl)).map Tuple.words).flatten

end Sch

namespace Nblfq

/- ===== Lock-free bounded queue =====

The queue is modelled by its sequential small-step semantics: one enqueue or
dequeue attempt is a single loop iteration in which the CAS on head or tail
always succeeds (no interference).  The `retry` outcome corresponds to the
branch where the source loops again; it leaves the state unchanged. -/

/-- Cell::EMPTY = u32::MAX. -/
def EMPTY : Nat := 2 ^ 32 - 1

/-- Cell::pack: counter in the high 32 bits, index in the low 32 bits (the
reductions model the u32 argument types). -/
def Cell.pack (index counter : Nat) : Nat := ((counter % 2 ^ 32) <<< 32) ||| index % 2 ^ 32

/-- Cell::unpack: (index, counter). -/
def Cell.unpack (packed : Nat) : Nat × Nat := (packed % 2 ^ 32, packed >>> 32 % 2 ^ 32)

def is_power_of_two_go : Nat → Nat → Bool
  | 0, _ => false
  | fuel + 1, n => n == 1 || (n % 2 == 0 && n != 0 && is_power_of_two_go fuel (n / 2))

/-- usize::is_power_of_two, decided structurally (usize is 64 bits wide). -/
def is_power_of_two (n : Nat) : Bool := is_power_of_two_go 64 n

structure Queue (α : Type) where
  cells : List Nat
  slots : List (Option α)
  head : Nat
  tail : Nat
  capacity : Nat
  mask : Nat
deriving DecidableEq

/-- Queue::new: panics (None) unless capacity is a power of two at most
u32::MAX; otherwise every cell starts as pack(EMPTY, 0) and every slot uninit. -/
def Queue.new (α : Type) (capacity : Nat) : Option (Queue α) :=
  if is_power_of_two capacity = true ∧ capacity ≤ 2 ^ 32 - 1 then
    some
      { cells := List.replicate capacity (Cell.pack EMPTY 0)
        slots := List.replicate capacity none
        head := 0
        tail := 0
        capacity := capacity
        mask := capacity - 1 }
  else none

/-- The lap computation shared by enqueue and dequeue:
`pos as u32 / capacity as u32` (both operands truncated to 32 bits). -/
def Queue.lap (capacity pos : Nat) : Nat := pos % 2 ^ 32 / (capacity % 2 ^ 32)

inductive EnqOut (α : Type) where
  | ok : EnqOut α
  | err : α → EnqOut α
  | retry : EnqOut α
deriving DecidableEq

/-- One iteration of Queue::enqueue's loop, with the CAS succeeding: claim the
head position, write the slot, publish pack(cell_index, counter); full when
counter < lap; otherwise the source retries. -/
def enqueue_step {α : Type} (q : Queue α) (value : α) : EnqOut α × Queue α :=
  let pos := q.head
  let cell_index := pos &&& q.mask
  let packed := q.cells.getD cell_index 0
  let index := (Cell.unpack packed).1
  let counter := (Cell.unpack packed).2
  if counter = Queue.lap q.capacity pos ∧ index = EMPTY then
    (EnqOut.ok,
     { q with
        head := (pos + 1) % 2 ^ 64
        slots := q.slots.set cell_index (some value)
        cells := q.cells.set cell_index (Cell.pack cell_index counter) })
  else if counter < Queue.lap q.capacity pos then (EnqOut.err value, q)
  else (EnqOut.retry, q)

inductive DeqOut (α : Type) where
  | got : Option α → DeqOut α
  | empty : DeqOut α
  | retry : DeqOut α
deriving DecidableEq

/-- One iteration of Queue::dequeue's loop, with the CAS succeeding: claim the
tail position, read the slot (the slot itself is not cleared), publish
pack(EMPTY, counter + 1); empty when counter < lap or the cell is free. -/
def dequeue_step {α : Type} (q : Queue α) : DeqOut α × Queue α :=
  let pos := q.tail
  let cell_index := pos &&& q.mask
  let packed := q.cells.getD cell_index 0
  let index := (Cell.unpack packed).1
  let counter := (Cell.unpack packed).2
  if counter = Queue.lap q.capacity pos ∧ index ≠ EMPTY then
    (DeqOut.got (q.slots.getD cell_index none),
     { q with
        tail := (pos + 1) % 2 ^ 64
        cells := q.cells.set cell_index (Cell.pack EMPTY (counter + 1)) })
  else if counter < Queue.lap q.capacity pos ∨
      (counter = Queue.lap q.capacity pos ∧ index = EMPTY) then
    (DeqOut.empty, q)
  else (DeqOut.retry, q)

/-- Run a list of enqueues, requiring every one of them to succeed. -/
def enqueue_all {α : Type} (q : Queue α) : List α → Option (Queue α)
  | [] => some q
  | v :: vs =>
    match enqueue_step q v with
    | (EnqOut.ok, q1) => enqueue_all q1 vs
    | _ => none

/-- Queue states reachable from Queue::new by enqueue and dequeue attempts
(failed and retried attempts return the state unchanged, so the two step
closures cover them as well). -/
inductive Reachable {α : Type} : Queue α → Prop where
  | init : ∀ (c : Nat) (q : Queue α), Queue.new α c = some q → Reachable q
  | enq : ∀ (q : Queue α) (v : α), Reachable q → Reachable (enqueue_step q v).2
  | deq : ∀ (q : Queue α), Reachable q → Reachable (dequeue_step q).2

/- ===== Filled-queue characterization (capacity 2^k, j enqueues, no dequeues) ===== -/

def filled_cells (k j : Nat) : List Nat :=
  (List.range (2 ^ k)).map (fun i => if i < j then Cell.pack i 0 else Cell.pack EMPTY 0)

def filled_slots (α : Type) (k j : Nat) (vals : List α) : List (Option α) :=
  (List.range (2 ^ k)).map (fun i => if i < j then vals.get? i else none)

def filled_queue (α : Type) (k j : Nat) (vals : List α) : Queue α :=
  { cells := filled_cells k j
    slots := filled_slots α k j vals
    head := j
    tail := 0
    capacity := 2 ^ k
    mask := 2 ^ k - 1 }

end Nblfq

namespace Sch

/- ===== Bit-arithmetic helpers ===== -/

theorem shiftLeft_or_eq_add {b k : Nat} (a : Nat) (hb : b < 2 ^ k) :
    a <<< k ||| b = a * 2 ^ k + b := by
  rw [Nat.shiftLeft_eq]
  calc a * 2 ^ k ||| b = 2 ^ k * a ||| b := by rw [Nat.mul_comm]
    _ = 2 ^ k * a + b := (Nat.mul_add_lt_is_or hb a).symm
    _ = a * 2 ^ k + b := by rw [Nat.mul_comm]

theorem and_or_self (x y : Nat) : (x ||| y) &&& y = y := by
  apply Nat.eq_of_testBit_eq
  intro i
  simp only [Nat.testBit_and, Nat.testBit_or]
  cases Nat.testBit x i <;> cases Nat.testBit y i <;> rfl

theorem and_mono_or {y t : Nat} (z : Nat) (h : y &&& t = t) : (y ||| z) &&& t = t := by
  apply Nat.eq_of_testBit_eq
  intro i
  have h2 := congrArg (fun w => Nat.testBit w i) h
  simp only [Nat.testBit_and, Nat.testBit_or] at h2 ⊢
  cases hy : Nat.testBit y i <;> cases hz : Nat.testBit z i <;>
    cases ht : Nat.testBit t i <;> simp_all

theorem foldl_or_absorb (l : List Nat) :
    ∀ b t : Nat, (t ∈ l ∨ b &&& t = t) → (l.foldl (fun x y => x ||| y) b) &&& t = t := by
  induction l with
  | nil =>
    intro b t h
    rcases h with h | h
    · simp at h
    · simpa using h
  | cons a l ih =>
    intro b t h
    show (l.foldl (fun x y => x ||| y) (b ||| a)) &&& t = t
    rcases h with h | h
    · rcases List.mem_cons.mp h with rfl | hmem
      · exact ih (b ||| t) t (Or.inr (and_or_self b t))
      · exact ih (b ||| a) t (Or.inl hmem)
    · exact ih (b ||| a) t (Or.inr (and_mono_or a h))

theorem foldl_or_lt (l : List Nat) {k : Nat} :
    ∀ b : Nat, b < 2 ^ k → (∀ x ∈ l, x < 2 ^ k) →
      l.foldl (fun x y => x ||| y) b < 2 ^ k := by
  induction l with
  | nil => intro b hb _; simpa using hb
  | cons a l ih =>
    intro b hb hl
    exact ih (b ||| a) (Nat.or_lt_two_pow hb (hl a (List.mem_cons_self a l)))
      (fun x hx => hl x (List.mem_cons_of_mem a hx))

/- ===== DirectoryEntry algebra ===== -/

theorem DirectoryEntry.new_eq {off bl : Nat} (hoff : off < 2 ^ 48) (hbl : bl < 2 ^ 16) :
    DirectoryEntry.new off bl = off * 2 ^ 16 + bl := by
  show (off <<< 16 ||| bl) % 2 ^ 64 = off * 2 ^ 16 + bl
  rw [shiftLeft_or_eq_add off hbl]
  apply Nat.mod_eq_of_lt
  have h1 : off * 2 ^ 16 ≤ (2 ^ 48 - 1) * 2 ^ 16 := Nat.mul_le_mul_right _ (by omega)
  omega

theorem DirectoryEntry.offset_eq {off bl : Nat} (hbl : bl < 2 ^ 16) :
    DirectoryEntry.offset (off * 2 ^ 16 + bl) = off := by
  show (off * 2 ^ 16 + bl) >>> 16 = off
  rw [Nat.shiftRight_eq_div_pow, Nat.mul_comm off,
    Nat.mul_add_div (Nat.two_pow_pos 16), Nat.div_eq_of_lt hbl, Nat.add_zero]

theorem DirectoryEntry.bloom_eq {off bl : Nat} (hbl : bl < 2 ^ 16) :
    DirectoryEntry.bloom (off * 2 ^ 16 + bl) = bl := by
  show (off * 2 ^ 16 + bl) % 2 ^ 16 = bl
  rw [Nat.mul_comm off, Nat.mul_add_mod, Nat.mod_eq_of_lt hbl]

theorem DirectoryEntry.add_offset_eq {off bl d : Nat} (h : off + d < 2 ^ 48)
    (hbl : bl < 2 ^ 16) :
    DirectoryEntry.add_offset (off * 2 ^ 16 + bl) d = (off + d) * 2 ^ 16 + bl := by
  show (off * 2 ^ 16 + bl + d <<< 16 % 2 ^ 64) % 2 ^ 64 = (off + d) * 2 ^ 16 + bl
  rw [Nat.shiftLeft_eq]
  have hd : d * 2 ^ 16 < 2 ^ 64 := by
    have : d * 2 ^ 16 ≤ (2 ^ 48 - 1) * 2 ^ 16 := Nat.mul_le_mul_right _ (by omega)
    omega
  rw [Nat.mod_eq_of_lt hd]
  have hsum : off * 2 ^ 16 + bl + d * 2 ^ 16 = (off + d) * 2 ^ 16 + bl := by ring
  rw [hsum]
  apply Nat.mod_eq_of_lt
  have h1 : (off + d) * 2 ^ 16 ≤ (2 ^ 48 - 1) * 2 ^ 16 := Nat.mul_le_mul_right _ (by omega)
  omega

theorem DirectoryEntry.with_tag_eq {off bl : Nat} (t : Nat) (hbl : bl < 2 ^ 16) :
    DirectoryEntry.with_tag (off * 2 ^ 16 + bl) t = off * 2 ^ 16 + (bl ||| t % 2 ^ 16) := by
  show off * 2 ^ 16 + bl ||| t % 2 ^ 16 = off * 2 ^ 16 + (bl ||| t % 2 ^ 16)
  have ht : t % 2 ^ 16 < 2 ^ 16 := Nat.mod_lt _ (Nat.two_pow_pos 16)
  have hor : bl ||| t % 2 ^ 16 < 2 ^ 16 := Nat.or_lt_two_pow hbl ht
  rw [Nat.mul_comm off, Nat.mul_add_lt_is_or hbl, Nat.or_assoc,
    ← Nat.mul_add_lt_is_or hor]

/- ===== Bloom tag facts ===== -/

set_option maxRecDepth 2048 in
theorem bloom_tags_bounded : ∀ x ∈ BLOOM_TAGS, 0 < x ∧ x < 2 ^ 16 := by
  show ∀ x ∈ BLOOM_CHUNK_0 ++ BLOOM_CHUNK_1 ++ BLOOM_CHUNK_2 ++ BLOOM_CHUNK_3 ++
    BLOOM_CHUNK_4 ++ BLOOM_CHUNK_5 ++ BLOOM_CHUNK_6 ++ BLOOM_CHUNK_7 ++
    BLOOM_CHUNK_8 ++ BLOOM_CHUNK_9 ++ BLOOM_CHUNK_10 ++ BLOOM_CHUNK_11 ++
    BLOOM_CHUNK_12 ++ BLOOM_CHUNK_13 ++ BLOOM_CHUNK_14 ++ BLOOM_CHUNK_15,
    0 < x ∧ x < 2 ^ 16
  simp only [List.forall_mem_append]
  refine ⟨⟨⟨⟨⟨⟨⟨⟨⟨⟨⟨⟨⟨⟨⟨?_, ?_⟩, ?_⟩, ?_⟩, ?_⟩, ?_⟩, ?_⟩, ?_⟩, ?_⟩, ?_⟩, ?_⟩, ?_⟩,
    ?_⟩, ?_⟩, ?_⟩, ?_⟩ <;> decide

theorem bloom_get_tag_lt (h : Nat) : bloom_get_tag h < 2 ^ 16 := by
  show BLOOM_TAGS.getD (h >>> 21) 0 < 2 ^ 16
  by_cases hlen : h >>> 21 < BLOOM_TAGS.length
  · rw [List.getD_eq_getElem _ _ hlen]
    exact (bloom_tags_bounded _ (List.getElem_mem hlen)).2
  · rw [List.getD_eq_default _ _ (Nat.le_of_not_lt hlen)]
    exact Nat.two_pow_pos 16

end Sch

namespace Sch

/- ===== Table sizing lemmas ===== -/

theorem next_power_of_two_go_pow (n : Nat) :
    ∀ fuel j : Nat, ∃ k, next_power_of_two_go n fuel (2 ^ j) = 2 ^ k := by
  intro fuel
  induction fuel with
  | zero => intro j; exact ⟨j, rfl⟩
  | succ fuel ih =>
    intro j
    by_cases h : 2 ^ j < n
    · have step : next_power_of_two_go n (fuel + 1) (2 ^ j)
          = next_power_of_two_go n fuel (2 ^ (j + 1)) := by
        show (if 2 ^ j < n then next_power_of_two_go n fuel (2 ^ j * 2) else 2 ^ j) = _
        rw [if_pos h, Nat.pow_succ]
      rw [step]
      exact ih (j + 1)
    · have step : next_power_of_two_go n (fuel + 1) (2 ^ j) = 2 ^ j := by
        show (if 2 ^ j < n then next_power_of_two_go n fuel (2 ^ j * 2) else 2 ^ j) = 2 ^ j
        rw [if_neg h]
      exact ⟨j, step⟩

theorem next_power_of_two_go_ge (n : Nat) :
    ∀ fuel power : Nat, n ≤ power * 2 ^ fuel → n ≤ next_power_of_two_go n fuel power := by
  intro fuel
  induction fuel with
  | zero => intro power h; simpa using h
  | succ fuel ih =>
    intro power h
    show n ≤ if power < n then next_power_of_two_go n fuel (power * 2) else power
    by_cases hlt : power < n
    · simp only [hlt, if_true]
      apply ih
      calc n ≤ power * 2 ^ (fuel + 1) := h
        _ = power * 2 * 2 ^ fuel := by ring
    · simpa [hlt] using Nat.le_of_not_lt hlt

theorem next_power_of_two_go_le (n : Nat) {m : Nat} (hm : n ≤ 2 ^ m) :
    ∀ fuel j : Nat, j ≤ m → next_power_of_two_go n fuel (2 ^ j) ≤ 2 ^ m := by
  intro fuel
  induction fuel with
  | zero => intro j hj; exact Nat.pow_le_pow_right (by omega) hj
  | succ fuel ih =>
    intro j hj
    show (if 2 ^ j < n then next_power_of_two_go n fuel (2 ^ j * 2) else 2 ^ j) ≤ 2 ^ m
    by_cases h : 2 ^ j < n
    · simp only [h, if_true]
      have hjm : j < m := by
        by_contra hc
        have : m = j := by omega
        subst this
        omega
      have : (2 : Nat) ^ j * 2 = 2 ^ (j + 1) := by rw [Nat.pow_succ]
      rw [this]
      exact ih (j + 1) hjm
    · simp only [h, if_false]
      exact Nat.pow_le_pow_right (by omega) hj

theorem next_power_of_two_pow (n : Nat) : ∃ k, next_power_of_two n = 2 ^ k := by
  have h := next_power_of_two_go_pow n n 0
  simpa [next_power_of_two] using h

theorem next_power_of_two_ge (n : Nat) : n ≤ next_power_of_two n := by
  apply next_power_of_two_go_ge
  have := Nat.lt_two_pow n
  omega

theorem next_power_of_two_le {n m : Nat} (h : n ≤ 2 ^ m) :
    next_power_of_two n ≤ 2 ^ m := by
  have := next_power_of_two_go_le n h n 0 (Nat.zero_le m)
  simpa [next_power_of_two] using this

theorem trailing_zeros_go_pow :
    ∀ fuel k : Nat, k < fuel → trailing_zeros_go fuel (2 ^ k) = k := by
  intro fuel
  induction fuel with
  | zero => omega
  | succ fuel ih =>
    intro k hk
    match k with
    | 0 => simp [trailing_zeros_go]
    | k + 1 =>
      show (if 2 ^ (k + 1) % 2 = 0 then trailing_zeros_go fuel (2 ^ (k + 1) / 2) + 1 else 0) = k + 1
      have heven : 2 ^ (k + 1) % 2 = 0 := by
        rw [Nat.pow_succ, Nat.mul_mod_left]
      have hdiv : 2 ^ (k + 1) / 2 = 2 ^ k := by
        rw [Nat.pow_succ, Nat.mul_div_cancel]
        omega
      rw [if_pos heven, hdiv, ih k (by omega)]

theorem trailing_zeros_pow {k : Nat} (hk : k < 64) : trailing_zeros (2 ^ k) = k := by
  show trailing_zeros_go 64 (2 ^ k % 2 ^ 64) = k
  rw [Nat.mod_eq_of_lt (Nat.pow_lt_pow_right (by omega) hk)]
  exact trailing_zeros_go_pow 64 k hk

/-- Characterization of compute_table_params in the non-overflowing range. -/
theorem compute_table_params_spec {n : Nat} (h : n + n / 8 ≤ 2 ^ 63) :
    ∃ k, 4 ≤ k ∧ k ≤ 63 ∧ (compute_table_params n).1 = 2 ^ k ∧
      (compute_table_params n).2 = 64 - k ∧
      max (n + n / 8) 16 ≤ 2 ^ k := by
  obtain ⟨k, hk⟩ := next_power_of_two_pow (max (n + n / 8) 16)
  have htarget : max (n + n / 8) 16 ≤ 2 ^ 63 := by
    have h16 : (16 : Nat) ≤ 2 ^ 63 := by norm_num
    omega
  have hge : max (n + n / 8) 16 ≤ 2 ^ k := hk ▸ next_power_of_two_ge _
  have hle : 2 ^ k ≤ 2 ^ 63 := hk ▸ next_power_of_two_le htarget
  have hk63 : k ≤ 63 := (Nat.pow_le_pow_iff_right (by omega)).mp hle
  have hk4 : 4 ≤ k := by
    have h16 : (2 : Nat) ^ 4 ≤ 2 ^ k := by
      calc (2 : Nat) ^ 4 = 16 := by norm_num
        _ ≤ 2 ^ k := le_trans (Nat.le_max_right _ 16) hge
    exact (Nat.pow_le_pow_iff_right (by omega)).mp h16
  refine ⟨k, hk4, hk63, ?_, ?_, hge⟩
  · show next_power_of_two (max (n + n / 8) 16) = 2 ^ k
    exact hk
  · show 64 - trailing_zeros (next_power_of_two (max (n + n / 8) 16)) = 64 - k
    rw [hk, trailing_zeros_pow (by omega)]

end Sch

namespace Nblfq

/- ===== Queue helper lemmas ===== -/

theorem is_power_of_two_go_iff :
    ∀ fuel n : Nat, n < 2 ^ fuel →
      (is_power_of_two_go fuel n = true ↔ ∃ k, n = 2 ^ k) := by
  intro fuel
  induction fuel with
  | zero =>
    intro n h
    have hn : n = 0 := by omega
    subst hn
    show (is_power_of_two_go 0 0 = true ↔ _)
    constructor
    · intro hfalse
      exact absurd hfalse (by decide)
    · rintro ⟨k, hk⟩
      have := Nat.two_pow_pos k
      omega
  | succ fuel ih =>
    intro n h
    show ((n == 1 || (n % 2 == 0 && n != 0 && is_power_of_two_go fuel (n / 2))) = true ↔ _)
    simp only [Bool.or_eq_true, Bool.and_eq_true, beq_iff_eq, bne_iff_ne]
    constructor
    · rintro (rfl | ⟨⟨heven, hne⟩, hgo⟩)
      · exact ⟨0, rfl⟩
      · have hlt : n / 2 < 2 ^ fuel := by
          rw [Nat.pow_succ] at h
          omega
        obtain ⟨k, hk⟩ := (ih (n / 2) hlt).mp hgo
        refine ⟨k + 1, ?_⟩
        rw [Nat.pow_succ]
        omega
    · rintro ⟨k, rfl⟩
      match k with
      | 0 => exact Or.inl rfl
      | k + 1 =>
        right
        have hpos := Nat.two_pow_pos k
        have heq : (2 : Nat) ^ (k + 1) = 2 ^ k * 2 := Nat.pow_succ 2 k
        refine ⟨⟨by omega, by omega⟩, ?_⟩
        have hdiv : 2 ^ (k + 1) / 2 = 2 ^ k := by
          rw [heq]
          exact Nat.mul_div_cancel _ (by omega)
        rw [hdiv]
        have hfe : (2 : Nat) ^ (fuel + 1) = 2 ^ fuel * 2 := Nat.pow_succ 2 fuel
        have hlt : 2 ^ k < 2 ^ fuel := by omega
        exact (ih (2 ^ k) hlt).mpr ⟨k, rfl⟩

theorem is_power_of_two_iff {n : Nat} (h : n < 2 ^ 64) :
    is_power_of_two n = true ↔ ∃ k, n = 2 ^ k :=
  is_power_of_two_go_iff 64 n h

theorem Cell.unpack_pack {i c : Nat} (hi : i < 2 ^ 32) (hc : c < 2 ^ 32) :
    Cell.unpack (Cell.pack i c) = (i, c) := by
  show (Cell.pack i c % 2 ^ 32, Cell.pack i c >>> 32 % 2 ^ 32) = (i, c)
  have hpack : Cell.pack i c = c * 2 ^ 32 + i := by
    show ((c % 2 ^ 32) <<< 32) ||| i % 2 ^ 32 = c * 2 ^ 32 + i
    rw [Nat.mod_eq_of_lt hi, Nat.mod_eq_of_lt hc, Sch.shiftLeft_or_eq_add c hi]
  rw [hpack]
  have h1 : (c * 2 ^ 32 + i) % 2 ^ 32 = i := by
    rw [Nat.mul_comm c, Nat.mul_add_mod, Nat.mod_eq_of_lt hi]
  have h2 : (c * 2 ^ 32 + i) >>> 32 % 2 ^ 32 = c := by
    rw [Nat.shiftRight_eq_div_pow, Nat.mul_comm c, Nat.mul_add_div (Nat.two_pow_pos 32),
      Nat.div_eq_of_lt hi, Nat.add_zero, Nat.mod_eq_of_lt hc]
  rw [h1, h2]

theorem getD_replicate {α : Type} (n : Nat) (a d : α) (i : Nat) :
    (List.replicate n a).getD i d = if i < n then a else d := by
  by_cases h : i < n
  · rw [if_pos h, List.getD_eq_getElem _ _ (by simpa using h),
      List.getElem_replicate]
  · rw [if_neg h]
    exact List.getD_eq_default _ _ (by simpa using Nat.le_of_not_lt h)

end Nblfq

namespace Nblfq

theorem new_eq_filled (α : Type) (k : Nat) (hk : 2 ^ k ≤ 2 ^ 32 - 1) :
    Queue.new α (2 ^ k) = some (filled_queue α k 0 []) := by
  have hlt : (2 : Nat) ^ k < 2 ^ 64 := by
    have : (2 : Nat) ^ 32 - 1 < 2 ^ 64 := by norm_num
    omega
  have hpow : is_power_of_two (2 ^ k) = true :=
    (is_power_of_two_iff hlt).mpr ⟨k, rfl⟩
  unfold Queue.new
  rw [if_pos ⟨hpow, hk⟩]
  unfold filled_queue filled_cells filled_slots
  refine congrArg _ ?_
  rw [Queue.mk.injEq]
  refine ⟨?_, ?_, rfl, rfl, rfl, rfl⟩
  · apply List.ext_getElem
    · simp
    · intro i h1 h2
      simp
  · apply List.ext_getElem
    · simp
    · intro i h1 h2
      simp

theorem enqueue_step_filled {α : Type} (k j : Nat) (vals : List α) (v : α)
    (hk : 2 ^ k ≤ 2 ^ 32 - 1) (hj : j < 2 ^ k) (hlen : vals.length = j) :
    enqueue_step (filled_queue α k j vals) v
      = (EnqOut.ok, filled_queue α k (j + 1) (vals ++ [v])) := by
  have hj32 : j < 2 ^ 32 := by omega
  have hmask : j &&& (2 ^ k - 1) = j := by
    rw [Nat.and_pow_two_sub_one_eq_mod, Nat.mod_eq_of_lt hj]
  have hcell : (filled_cells k j).getD j 0 = Cell.pack EMPTY 0 := by
    unfold filled_cells
    rw [List.getD_eq_getElem _ _ (by simpa using hj)]
    simp
  have hunpack : Cell.unpack (Cell.pack EMPTY 0) = (EMPTY, 0) :=
    Cell.unpack_pack (by unfold EMPTY; omega) (by omega)
  have hlap : Queue.lap (2 ^ k) j = 0 := by
    unfold Queue.lap
    rw [Nat.mod_eq_of_lt hj32, Nat.mod_eq_of_lt (by omega : (2 : Nat) ^ k < 2 ^ 32)]
    exact Nat.div_eq_of_lt hj
  simp only [enqueue_step, filled_queue, hmask, hcell, hunpack, hlap]
  rw [if_pos (by simp)]
  have hhead : (j + 1) % 2 ^ 64 = j + 1 := by
    apply Nat.mod_eq_of_lt
    have : (2 : Nat) ^ 32 < 2 ^ 64 := by norm_num
    omega
  refine congrArg₂ _ rfl ?_
  rw [Queue.mk.injEq]
  refine ⟨?_, ?_, hhead, rfl, rfl, rfl⟩
  · show (filled_cells k j).set j (Cell.pack j 0) = filled_cells k (j + 1)
    unfold filled_cells
    apply List.ext_getElem
    · simp
    · intro i h1 h2
      simp only [List.length_set, List.length_map, List.length_range] at h1 h2
      rw [List.getElem_set]
      by_cases hij : j = i
      · subst hij
        simp [hj]
      · simp only [if_neg hij, List.getElem_map, List.getElem_range]
        by_cases hlt2 : i < j
        · rw [if_pos hlt2, if_pos (by omega)]
        · rw [if_neg hlt2, if_neg (by omega)]
  · show (filled_slots α k j vals).set j (some v) = filled_slots α k (j + 1) (vals ++ [v])
    unfold filled_slots
    apply List.ext_getElem
    · simp
    · intro i h1 h2
      simp only [List.length_set, List.length_map, List.length_range] at h1 h2
      rw [List.getElem_set]
      by_cases hij : j = i
      · subst hij
        have hget : (vals ++ [v])[j]? = some v := by
          rw [← hlen]
          exact List.getElem?_concat_length vals v
        simp [hj, hget]
      · simp only [if_neg hij, List.getElem_map, List.getElem_range]
        by_cases hlt2 : i < j
        · rw [if_pos hlt2, if_pos (by omega)]
          show vals.get? i = (vals ++ [v]).get? i
          simp only [List.get?_eq_getElem?]
          exact (List.getElem?_append_left (by omega)).symm
        · rw [if_neg hlt2, if_neg (by omega)]

theorem enqueue_all_filled {α : Type} (k : Nat) (hk : 2 ^ k ≤ 2 ^ 32 - 1) :
    ∀ (vs vals : List α) (j : Nat), vals.length = j → j + vs.length ≤ 2 ^ k →
      enqueue_all (filled_queue α k j vals) vs
        = some (filled_queue α k (j + vs.length) (vals ++ vs)) := by
  intro vs
  induction vs with
  | nil =>
    intro vals j hlen hle
    simp [enqueue_all]
  | cons v vs ih =>
    intro vals j hlen hle
    have hj : j < 2 ^ k := by
      have := vs.length
      simp only [List.length_cons] at hle
      omega
    show enqueue_all (filled_queue α k j vals) (v :: vs) = _
    unfold enqueue_all
    rw [enqueue_step_filled k j vals v hk hj hlen]
    dsimp only
    rw [ih (vals ++ [v]) (j + 1) (by simp [hlen]) (by simp at hle ⊢; omega)]
    simp only [List.length_cons]
    rw [List.append_assoc]
    refine congrArg _ (congrArg₂ _ (by omega) rfl)

end Nblfq

namespace Nblfq

theorem enqueue_step_full {α : Type} (k : Nat) (vals : List α) (v : α)
    (hk : 2 ^ k ≤ 2 ^ 32 - 1) :
    enqueue_step (filled_queue α k (2 ^ k) vals) v
      = (EnqOut.err v, filled_queue α k (2 ^ k) vals) := by
  have hpos : 0 < 2 ^ k := Nat.two_pow_pos k
  have hk32 : (2 : Nat) ^ k < 2 ^ 32 := by omega
  have hmask : 2 ^ k &&& (2 ^ k - 1) = 0 := by
    rw [Nat.and_pow_two_sub_one_eq_mod, Nat.mod_self]
  have hcell : (filled_cells k (2 ^ k)).getD 0 0 = Cell.pack 0 0 := by
    unfold filled_cells
    rw [List.getD_eq_getElem _ _ (by simpa using hpos)]
    simp [hpos]
  have hunpack : Cell.unpack (Cell.pack 0 0) = (0, 0) :=
    Cell.unpack_pack (by omega) (by omega)
  have hlap : Queue.lap (2 ^ k) (2 ^ k) = 1 := by
    unfold Queue.lap
    rw [Nat.mod_eq_of_lt hk32, Nat.div_self hpos]
  simp only [enqueue_step, filled_queue, hmask, hcell, hunpack, hlap]
  rw [if_neg (by simp), if_pos (by omega)]

theorem enqueue_step_fields {α : Type} (q : Queue α) (v : α) :
    (enqueue_step q v).2.capacity = q.capacity ∧ (enqueue_step q v).2.mask = q.mask := by
  unfold enqueue_step
  dsimp only
  split
  · exact ⟨rfl, rfl⟩
  · split
    · exact ⟨rfl, rfl⟩
    · exact ⟨rfl, rfl⟩

theorem dequeue_step_fields {α : Type} (q : Queue α) :
    (dequeue_step q).2.capacity = q.capacity ∧ (dequeue_step q).2.mask = q.mask := by
  unfold dequeue_step
  dsimp only
  split
  · exact ⟨rfl, rfl⟩
  · split
    · exact ⟨rfl, rfl⟩
    · exact ⟨rfl, rfl⟩

theorem reachable_valid {α : Type} {q : Queue α} (h : Reachable q) :
    0 < q.capacity ∧ q.capacity ≤ 2 ^ 32 - 1 ∧ q.mask = q.capacity - 1 := by
  induction h with
  | init c q hq =>
    unfold Queue.new at hq
    by_cases hc : is_power_of_two c = true ∧ c ≤ 2 ^ 32 - 1
    · rw [if_pos hc] at hq
      have hrec := Option.some.inj hq
      subst hrec
      refine ⟨?_, hc.2, rfl⟩
      rcases Nat.eq_zero_or_pos c with rfl | hpos
      · exact absurd hc.1 (by decide)
      · exact hpos
    · rw [if_neg hc] at hq
      exact absurd hq (by simp)
  | enq q v hr ih =>
    have hf := enqueue_step_fields q v
    refine ⟨?_, ?_, ?_⟩
    · rw [hf.1]; exact ih.1
    · rw [hf.1]; exact ih.2.1
    · rw [hf.1, hf.2]; exact ih.2.2
  | deq q hr ih =>
    have hf := dequeue_step_fields q
    refine ⟨?_, ?_, ?_⟩
    · rw [hf.1]; exact ih.1
    · rw [hf.1]; exact ih.2.1
    · rw [hf.1, hf.2]; exact ih.2.2

theorem enqueue_step_ok_cells {α : Type} {q : Queue α} {v : α} {q' : Queue α}
    (h : enqueue_step q v = (EnqOut.ok, q')) :
    ∃ ctr, ctr < 2 ^ 32 ∧
      q'.cells = q.cells.set (q.head &&& q.mask)
        (Cell.pack (q.head &&& q.mask) ctr) := by
  unfold enqueue_step at h
  dsimp only at h
  by_cases hc : (Cell.unpack (q.cells.getD (q.head &&& q.mask) 0)).2
      = Queue.lap q.capacity q.head ∧
      (Cell.unpack (q.cells.getD (q.head &&& q.mask) 0)).1 = EMPTY
  · rw [if_pos hc] at h
    rw [Prod.mk.injEq] at h
    obtain ⟨-, h2⟩ := h
    refine ⟨(Cell.unpack (q.cells.getD (q.head &&& q.mask) 0)).2, ?_, ?_⟩
    · show _ % 2 ^ 32 < 2 ^ 32
      exact Nat.mod_lt _ (Nat.two_pow_pos 32)
    · rw [← h2]
  · rw [if_neg hc] at h
    by_cases hlt : (Cell.unpack (q.cells.getD (q.head &&& q.mask) 0)).2
        < Queue.lap q.capacity q.head
    · rw [if_pos hlt] at h
      rw [Prod.mk.injEq] at h
      exact absurd h.1 (by simp)
    · rw [if_neg hlt] at h
      rw [Prod.mk.injEq] at h
      exact absurd h.1 (by simp)

end Nblfq

namespace Sch

/- ===== List getD/set utilities ===== -/

theorem getD_set_self {l : List Nat} {i : Nat} (h : i < l.length) (a : Nat) :
    (l.set i a).getD i 0 = a := by
  rw [List.getD_eq_getElem _ _ (by simpa using h)]
  exact List.getElem_set_self (by simpa using h)

theorem getD_set_ne {l : List Nat} {i j : Nat} (h : j ≠ i) (a : Nat) :
    (l.set i a).getD j 0 = l.getD j 0 := by
  by_cases hj : j < l.length
  · rw [List.getD_eq_getElem _ _ (by simpa using hj),
      List.getD_eq_getElem _ _ hj]
    exact List.getElem_set_ne (fun he => h he.symm) _
  · rw [List.getD_eq_default _ _ (by simpa using Nat.le_of_not_lt hj),
      List.getD_eq_default _ _ (Nat.le_of_not_lt hj)]

/- ===== set_words lemmas ===== -/

theorem set_words_length : ∀ (ws st : List Nat) (w : Nat),
    (set_words st w ws).length = st.length := by
  intro ws
  induction ws with
  | nil => intro st w; rfl
  | cons x xs ih =>
    intro st w
    show (set_words (st.set w x) (w + 1) xs).length = st.length
    rw [ih, List.length_set]

theorem set_words_getD_out : ∀ (ws st : List Nat) (w j : Nat),
    (j < w ∨ w + ws.length ≤ j) → (set_words st w ws).getD j 0 = st.getD j 0 := by
  intro ws
  induction ws with
  | nil => intro st w j _; rfl
  | cons x xs ih =>
    intro st w j hj
    show (set_words (st.set w x) (w + 1) xs).getD j 0 = st.getD j 0
    simp only [List.length_cons] at hj
    have hne : j ≠ w := by omega
    have hj2 : j < w + 1 ∨ w + 1 + xs.length ≤ j := by omega
    rw [ih (st.set w x) (w + 1) j hj2, getD_set_ne hne]

theorem set_words_getD_in : ∀ (ws st : List Nat) (w i : Nat),
    i < ws.length → w + ws.length ≤ st.length →
    (set_words st w ws).getD (w + i) 0 = ws.getD i 0 := by
  intro ws
  induction ws with
  | nil => intro st w i h _; simp at h
  | cons x xs ih =>
    intro st w i hi hlen
    show (set_words (st.set w x) (w + 1) xs).getD (w + i) 0 = (x :: xs).getD i 0
    match i with
    | 0 =>
      show (set_words (st.set w x) (w + 1) xs).getD w 0 = x
      rw [set_words_getD_out xs (st.set w x) (w + 1) w (Or.inl (by omega))]
      exact getD_set_self (by simp only [List.length_cons] at hlen; omega) x
    | i + 1 =>
      have : w + (i + 1) = (w + 1) + i := by omega
      rw [this, ih (st.set w x) (w + 1) i (by simpa using hi)
        (by simp only [List.length_cons] at hlen; simp; omega)]
      rfl

end Sch

namespace Sch

theorem slot_count_cons (shift : Nat) (t : Tuple) (data : List Tuple) (sl : Nat) :
    slot_count shift (t :: data) sl
      = if slot_of shift t = sl then slot_count shift data sl + 1
        else slot_count shift data sl := by
  unfold slot_count
  rw [List.filter_cons]
  by_cases h : slot_of shift t = sl
  · rw [if_pos (by simpa using h), if_pos h, List.length_cons]
  · rw [if_neg (by simpa using h), if_neg h]

theorem group_words_cons (shift : Nat) (t : Tuple) (data : List Tuple) (sl : Nat) :
    group_words shift (t :: data) sl
      = if slot_of shift t = sl then t.words ++ group_words shift data sl
        else group_words shift data sl := by
  unfold group_words
  rw [List.filter_cons]
  by_cases h : slot_of shift t = sl
  · rw [if_pos (by simpa using h), if_pos h, List.map_cons, List.flatten_cons]
  · rw [if_neg (by simpa using h), if_neg h]

theorem count_below_zero (shift : Nat) (data : List Tuple) :
    count_below shift data 0 = 0 := by
  unfold count_below
  induction data with
  | nil => rfl
  | cons t data ih =>
    rw [List.filter_cons, if_neg (by simp)]
    exact ih

theorem count_below_succ (shift : Nat) (data : List Tuple) (sl : Nat) :
    count_below shift data (sl + 1) = count_below shift data sl + slot_count shift data sl := by
  unfold count_below slot_count
  induction data with
  | nil => rfl
  | cons t data ih =>
    rw [List.filter_cons, List.filter_cons, List.filter_cons]
    by_cases h1 : slot_of shift t < sl
    · rw [if_pos (by simpa using (show slot_of shift t < sl + 1 by omega)),
        if_pos (by simpa using h1), if_neg (by simp; omega)]
      simp only [List.length_cons]
      omega
    · by_cases h2 : slot_of shift t = sl
      · rw [if_pos (by simpa using (show slot_of shift t < sl + 1 by omega)),
          if_neg (by simpa using h1), if_pos (by simpa using h2)]
        simp only [List.length_cons]
        omega
      · rw [if_neg (by simp; omega), if_neg (by simpa using h1),
          if_neg (by simpa using h2)]
        exact ih

theorem count_below_mono (shift : Nat) (data : List Tuple) {a b : Nat} (h : a ≤ b) :
    count_below shift data a ≤ count_below shift data b := by
  unfold count_below
  induction data with
  | nil => exact Nat.le_refl _
  | cons t data ih =>
    rw [List.filter_cons, List.filter_cons]
    by_cases h1 : slot_of shift t < a
    · rw [if_pos (by simpa using h1),
        if_pos (by simpa using (show slot_of shift t < b by omega))]
      simpa using ih
    · by_cases h2 : slot_of shift t < b
      · rw [if_neg (by simpa using h1), if_pos (by simpa using h2)]
        simp only [List.length_cons]
        omega
      · rw [if_neg (by simpa using h1), if_neg (by simpa using h2)]
        exact ih

theorem count_below_total (shift : Nat) (data : List Tuple) (N : Nat)
    (h : ∀ t ∈ data, slot_of shift t < N) :
    count_below shift data N = data.length := by
  unfold count_below
  induction data with
  | nil => rfl
  | cons t data ih =>
    rw [List.filter_cons, if_pos (by simpa using h t (List.mem_cons_self t data)),
      List.length_cons, List.length_cons,
      ih (fun t2 ht2 => h t2 (List.mem_cons_of_mem t ht2))]

theorem slot_count_le (shift : Nat) (data : List Tuple) (sl : Nat) :
    slot_count shift data sl ≤ data.length :=
  List.length_filter_le _ _

theorem bloom_or_lt (shift : Nat) (data : List Tuple) (sl : Nat) :
    bloom_or shift data sl < 2 ^ 16 := by
  unfold bloom_or
  apply foldl_or_lt
  · exact Nat.two_pow_pos 16
  · intro x hx
    obtain ⟨t, -, rfl⟩ := List.mem_map.mp hx
    exact bloom_get_tag_lt _

/- ===== Phase 1 characterization ===== -/

theorem build_phase1_length (stride shift : Nat) :
    ∀ (data : List Tuple) (dir : List Nat),
      (build_phase1 stride shift dir data).length = dir.length := by
  intro data
  induction data with
  | nil => intro dir; rfl
  | cons t data ih =>
    intro dir
    show (build_phase1 stride shift (dir.set _ _) data).length = _
    rw [ih, List.length_set]

theorem build_phase1_getD (stride shift : Nat) :
    ∀ (data : List Tuple) (dir : List Nat) (j : Nat),
      (∀ t ∈ data, slot_of shift t + 1 < dir.length) →
      (build_phase1 stride shift dir data).getD j 0
        = (data.filter (fun t => slot_of shift t + 1 == j)).foldl
            (fun e t =>
              DirectoryEntry.with_tag (DirectoryEntry.add_offset e stride) (tag_of t))
            (dir.getD j 0) := by
  intro data
  induction data with
  | nil => intro dir j h; rfl
  | cons t data ih =>
    intro dir j h
    have hlt : slot_of shift t + 1 < dir.length := h t (List.mem_cons_self t data)
    show (build_phase1 stride shift
        (dir.set (slot_of shift t + 1)
          (DirectoryEntry.with_tag
            (DirectoryEntry.add_offset (dir.getD (slot_of shift t + 1) 0) stride)
            (tag_of t))) data).getD j 0 = _
    rw [ih _ j (fun t2 ht2 => by
      rw [List.length_set]
      exact h t2 (List.mem_cons_of_mem t ht2))]
    rw [List.filter_cons]
    by_cases hj : slot_of shift t + 1 = j
    · rw [if_pos (by simpa using hj)]
      subst hj
      rw [getD_set_self hlt]
      rfl
    · rw [if_neg (by simpa using hj), getD_set_ne (fun he => hj he.symm)]

theorem phase1_foldl_spec (stride shift : Nat) :
    ∀ (M : List Tuple) (off bl : Nat), bl < 2 ^ 16 →
      off + M.length * stride < 2 ^ 48 →
      M.foldl (fun e t =>
          DirectoryEntry.with_tag (DirectoryEntry.add_offset e stride) (tag_of t))
        (off * 2 ^ 16 + bl)
        = (off + M.length * stride) * 2 ^ 16
          + (M.map tag_of).foldl (fun x y => x ||| y) bl := by
  intro M
  induction M with
  | nil => intro off bl hbl hov; simp
  | cons t M ih =>
    intro off bl hbl hov
    have hmul : (M.length + 1) * stride = M.length * stride + stride := Nat.succ_mul _ _
    simp only [List.length_cons] at hov
    have hov1 : off + stride < 2 ^ 48 := by omega
    have htag : tag_of t % 2 ^ 16 = tag_of t :=
      Nat.mod_eq_of_lt (bloom_get_tag_lt _)
    show M.foldl _
        (DirectoryEntry.with_tag
          (DirectoryEntry.add_offset (off * 2 ^ 16 + bl) stride) (tag_of t)) = _
    rw [DirectoryEntry.add_offset_eq hov1 hbl,
      DirectoryEntry.with_tag_eq _ hbl, htag]
    have hor : bl ||| tag_of t < 2 ^ 16 :=
      Nat.or_lt_two_pow hbl (bloom_get_tag_lt _)
    rw [ih (off + stride) (bl ||| tag_of t) hor (by omega)]
    have harith : off + stride + M.length * stride = off + (M.length + 1) * stride := by
      omega
    rw [harith]
    rfl

end Sch

namespace Sch

/- ===== Phase 2 characterization ===== -/

theorem build_phase2_go_length :
    ∀ (l : List Nat) (cum : Nat), (build_phase2_go cum l).length = l.length := by
  intro l
  induction l with
  | nil => intro cum; rfl
  | cons e l ih =>
    intro cum
    show (DirectoryEntry.new cum _ :: build_phase2_go _ l).length = _
    rw [List.length_cons, ih, List.length_cons]

theorem sum_map_take_succ (l : List Nat) (g : Nat → Nat) (i : Nat) (h : i < l.length) :
    ((l.take (i + 1)).map g).sum = ((l.take i).map g).sum + g (l.getD i 0) := by
  rw [List.take_succ, List.map_append, List.sum_append]
  congr 1
  rw [List.getElem?_eq_getElem h]
  show g l[i] + 0 = g (l.getD i 0)
  rw [Nat.add_zero, List.getD_eq_getElem _ _ h]

theorem build_phase2_go_getD :
    ∀ (l : List Nat) (cum i : Nat), i < l.length →
      (build_phase2_go cum l).getD i 0
        = DirectoryEntry.new (cum + ((l.take i).map DirectoryEntry.offset).sum)
            (DirectoryEntry.bloom (l.getD i 0)) := by
  intro l
  induction l with
  | nil => intro cum i h; simp at h
  | cons e l ih =>
    intro cum i h
    match i with
    | 0 =>
      show DirectoryEntry.new cum (DirectoryEntry.bloom e) = _
      rw [List.take_zero, List.map_nil, List.sum_nil, Nat.add_zero]
      rfl
    | i + 1 =>
      show (build_phase2_go (cum + DirectoryEntry.offset e) l).getD i 0 = _
      rw [ih (cum + DirectoryEntry.offset e) i (by simpa using h)]
      rw [List.take_succ_cons, List.map_cons, List.sum_cons]
      rw [← Nat.add_assoc]
      rfl

/- ===== Directory after phases 1 and 2 ===== -/

theorem dir2_spec (stride shift N : Nat) (data : List Tuple)
    (hslots : ∀ t ∈ data, slot_of shift t < N)
    (hsize : data.length * stride < 2 ^ 48) :
    (build_phase2 (build_phase1 stride shift
        (List.replicate (N + 1) DirectoryEntry.EMPTY) data)).length = N + 1 ∧
    (build_phase2 (build_phase1 stride shift
        (List.replicate (N + 1) DirectoryEntry.EMPTY) data)).getD 0 0 = 0 ∧
    ∀ sl, sl < N →
      (build_phase2 (build_phase1 stride shift
          (List.replicate (N + 1) DirectoryEntry.EMPTY) data)).getD (sl + 1) 0
        = count_below shift data sl * stride * 2 ^ 16 + bloom_or shift data sl := by
  have hlen0 : (List.replicate (N + 1) DirectoryEntry.EMPTY).length = N + 1 :=
    List.length_replicate _ _
  have hmem : ∀ t ∈ data, slot_of shift t + 1
      < (List.replicate (N + 1) DirectoryEntry.EMPTY).length := by
    intro t ht
    rw [hlen0]
    have := hslots t ht
    omega
  have hdir1_len : (build_phase1 stride shift
      (List.replicate (N + 1) DirectoryEntry.EMPTY) data).length = N + 1 := by
    rw [build_phase1_length, hlen0]
  have hdir1_0 : (build_phase1 stride shift
      (List.replicate (N + 1) DirectoryEntry.EMPTY) data).getD 0 0 = 0 := by
    rw [build_phase1_getD stride shift data _ 0 hmem]
    have hfil : data.filter (fun t => slot_of shift t + 1 == 0) = [] := by
      apply List.filter_eq_nil_iff.mpr
      intro t ht
      simp
    rw [hfil]
    show (List.replicate (N + 1) DirectoryEntry.EMPTY).getD 0 0 = 0
    rw [Nblfq.getD_replicate]
    simp [DirectoryEntry.EMPTY]
  have hdir1 : ∀ sl, sl < N →
      (build_phase1 stride shift
        (List.replicate (N + 1) DirectoryEntry.EMPTY) data).getD (sl + 1) 0
        = slot_count shift data sl * stride * 2 ^ 16 + bloom_or shift data sl := by
    intro sl hsl
    rw [build_phase1_getD stride shift data _ (sl + 1) hmem]
    have hfil : data.filter (fun t => slot_of shift t + 1 == sl + 1)
        = data.filter (fun t => slot_of shift t == sl) := by
      apply List.filter_congr
      intro t ht
      simp
    have hrep : (List.replicate (N + 1) DirectoryEntry.EMPTY).getD (sl + 1) 0
        = 0 * 2 ^ 16 + 0 := by
      rw [Nblfq.getD_replicate, if_pos (by omega)]
      simp [DirectoryEntry.EMPTY]
    rw [hfil, hrep]
    rw [phase1_foldl_spec stride shift _ 0 0 (Nat.two_pow_pos 16) (by
      have hle : (data.filter (fun t => slot_of shift t == sl)).length * stride
          ≤ data.length * stride :=
        Nat.mul_le_mul_right _ (List.length_filter_le _ _)
      omega)]
    rw [Nat.zero_add]
    rfl
  have hne : build_phase1 stride shift
      (List.replicate (N + 1) DirectoryEntry.EMPTY) data ≠ [] := by
    intro hnil
    rw [hnil] at hdir1_len
    simp at hdir1_len
  obtain ⟨e0, rest, hcons⟩ := List.exists_cons_of_ne_nil hne
  have hrest_len : rest.length = N := by
    rw [hcons, List.length_cons] at hdir1_len
    omega
  have hrest_getD : ∀ sl, rest.getD sl 0
      = (build_phase1 stride shift
          (List.replicate (N + 1) DirectoryEntry.EMPTY) data).getD (sl + 1) 0 := by
    intro sl
    rw [hcons]
    rfl
  have he0 : e0 = 0 := by
    have := hdir1_0
    rw [hcons] at this
    exact this
  have hsum : ∀ sl, sl ≤ N →
      ((rest.take sl).map DirectoryEntry.offset).sum
        = count_below shift data sl * stride := by
    intro sl
    induction sl with
    | zero =>
      intro _
      simp [count_below_zero]
    | succ sl ih =>
      intro hle
      rw [sum_map_take_succ rest _ sl (by omega), ih (by omega), hrest_getD sl,
        hdir1 sl (by omega)]
      rw [DirectoryEntry.offset_eq (bloom_or_lt shift data sl)]
      rw [count_below_succ]
      ring
  have hphase2 : build_phase2 (build_phase1 stride shift
      (List.replicate (N + 1) DirectoryEntry.EMPTY) data)
      = e0 :: build_phase2_go 0 rest := by
    rw [hcons]
    rfl
  refine ⟨?_, ?_, ?_⟩
  · rw [hphase2, List.length_cons, build_phase2_go_length, hrest_len]
  · rw [hphase2, he0]
    rfl
  · intro sl hsl
    have hgo : (e0 :: build_phase2_go 0 rest).getD (sl + 1) 0
        = (build_phase2_go 0 rest).getD sl 0 := rfl
    rw [hphase2, hgo, build_phase2_go_getD rest 0 sl (by omega), Nat.zero_add,
      hsum sl (by omega), hrest_getD sl, hdir1 sl hsl]
    have hcb : count_below shift data sl * stride < 2 ^ 48 := by
      have h1 : count_below shift data sl ≤ data.length := List.length_filter_le _ _
      have h2 : count_below shift data sl * stride ≤ data.length * stride :=
        Nat.mul_le_mul_right _ h1
      omega
    rw [DirectoryEntry.bloom_eq (bloom_or_lt shift data sl),
      DirectoryEntry.new_eq hcb (bloom_or_lt shift data sl)]

end Sch


namespace Sch

theorem getD_append_left {l1 l2 : List Nat} {i : Nat} (h : i < l1.length) :
    (l1 ++ l2).getD i 0 = l1.getD i 0 := by
  rw [List.getD_eq_getElem?_getD, List.getD_eq_getElem?_getD,
    List.getElem?_append_left h]

theorem getD_append_right {l1 l2 : List Nat} {i : Nat} (h : l1.length ≤ i) :
    (l1 ++ l2).getD i 0 = l2.getD (i - l1.length) 0 := by
  rw [List.getD_eq_getElem?_getD, List.getD_eq_getElem?_getD,
    List.getElem?_append_right h]

/- ===== Phase 3 master lemma =====

The scatter phase: starting from a directory whose entry sl+1 holds the byte
cursor off sl (bloom bits bl sl), where the pending byte regions
[off sl, off sl + count sl * stride) are in-bounds, 8-aligned and pairwise
disjoint, processing the remaining tuples fills each region with the words of
that slot's tuples in traversal order, advances each cursor to the end of its
region, and leaves every other directory entry and storage word untouched. -/

theorem build_phase3_spec (s f N shift : Nat) (hf : 0 < f) (hs : s = 8 * f) :
    ∀ (data : List Tuple) (dir st : List Nat) (off bl : Nat → Nat),
      (∀ t ∈ data, slot_of shift t < N ∧ t.words.length = f) →
      N < dir.length →
      (∀ sl, sl < N → dir.getD (sl + 1) 0 = off sl * 2 ^ 16 + bl sl) →
      (∀ sl, sl < N → bl sl < 2 ^ 16) →
      (∀ sl, sl < N → off sl + slot_count shift data sl * s < 2 ^ 48) →
      (∀ sl, sl < N → 8 ∣ off sl) →
      (∀ sl, sl < N → off sl + slot_count shift data sl * s ≤ 8 * st.length) →
      (∀ sl sl2, sl < N → sl2 < N → sl ≠ sl2 →
        off sl + slot_count shift data sl * s ≤ off sl2 ∨
        off sl2 + slot_count shift data sl2 * s ≤ off sl) →
      ((build_phase3 s shift (dir, st) data).1.length = dir.length ∧
       (build_phase3 s shift (dir, st) data).2.length = st.length ∧
       (∀ sl, sl < N → (build_phase3 s shift (dir, st) data).1.getD (sl + 1) 0
          = (off sl + slot_count shift data sl * s) * 2 ^ 16 + bl sl) ∧
       (∀ j, (∀ sl, sl < N → j ≠ sl + 1) →
          (build_phase3 s shift (dir, st) data).1.getD j 0 = dir.getD j 0) ∧
       (∀ sl, sl < N → ∀ i, i < slot_count shift data sl * f →
          (build_phase3 s shift (dir, st) data).2.getD (off sl / 8 + i) 0
            = (group_words shift data sl).getD i 0) ∧
       (∀ w, (∀ sl, sl < N →
            ¬ (off sl / 8 ≤ w ∧ w < off sl / 8 + slot_count shift data sl * f)) →
          (build_phase3 s shift (dir, st) data).2.getD w 0 = st.getD w 0)) := by
  intro data
  induction data with
  | nil =>
    intro dir st off bl hwords hN hdecomp hbl hov hal hcap hdisj
    refine ⟨rfl, rfl, ?_, ?_, ?_, ?_⟩
    · intro sl hsl
      show dir.getD (sl + 1) 0 = _
      rw [hdecomp sl hsl]
      simp [slot_count]
    · intro j _
      rfl
    · intro sl hsl i hi
      simp [slot_count] at hi
    · intro w _
      rfl
  | cons t data ih =>
    intro dir st off bl hwords hN hdecomp hbl hov hal hcap hdisj
    obtain ⟨hsl0, hwlen⟩ := hwords t (List.mem_cons_self t data)
    have hcnt0 : slot_count shift (t :: data) (slot_of shift t)
        = slot_count shift data (slot_of shift t) + 1 := by
      rw [slot_count_cons, if_pos rfl]
    have hcnt_ne : ∀ sl, sl ≠ slot_of shift t →
        slot_count shift (t :: data) sl = slot_count shift data sl := by
      intro sl h
      rw [slot_count_cons, if_neg (fun he => h he.symm)]
    have hmul0 : (slot_count shift data (slot_of shift t) + 1) * s
        = slot_count shift data (slot_of shift t) * s + s := Nat.succ_mul _ _
    have hmulf : (slot_count shift data (slot_of shift t) + 1) * f
        = slot_count shift data (slot_of shift t) * f + f := Nat.succ_mul _ _
    have hov0 : off (slot_of shift t) + s < 2 ^ 48 := by
      have h1 := hov _ hsl0
      rw [hcnt0, hmul0] at h1
      omega
    have hentry := hdecomp _ hsl0
    have hstep_dir : DirectoryEntry.add_offset (dir.getD (slot_of shift t + 1) 0) s
        = (off (slot_of shift t) + s) * 2 ^ 16 + bl (slot_of shift t) := by
      rw [hentry, DirectoryEntry.add_offset_eq hov0 (hbl _ hsl0)]
    have hcursor : DirectoryEntry.offset (dir.getD (slot_of shift t + 1) 0)
        = off (slot_of shift t) := by
      rw [hentry, DirectoryEntry.offset_eq (hbl _ hsl0)]
    have hunfold : build_phase3 s shift (dir, st) (t :: data)
        = build_phase3 s shift
            (dir.set (slot_of shift t + 1)
              ((off (slot_of shift t) + s) * 2 ^ 16 + bl (slot_of shift t)),
             set_words st (off (slot_of shift t) / 8) t.words) data := by
      show build_phase3 s shift
          (dir.set (slot_of shift t + 1)
            (DirectoryEntry.add_offset (dir.getD (slot_of shift t + 1) 0) s),
           set_words st (DirectoryEntry.offset (dir.getD (slot_of shift t + 1) 0) / 8)
             t.words) data = _
      rw [hstep_dir, hcursor]
    obtain ⟨q0, hq0⟩ := hal _ hsl0
    have hdiv8 : (off (slot_of shift t) + s) / 8 = off (slot_of shift t) / 8 + f := by
      omega
    have hcap0 : off (slot_of shift t) / 8 + f ≤ st.length := by
      have h1 := hcap _ hsl0
      rw [hcnt0, hmul0] at h1
      omega
    have hN' : N < (dir.set (slot_of shift t + 1)
        ((off (slot_of shift t) + s) * 2 ^ 16 + bl (slot_of shift t))).length := by
      rw [List.length_set]
      exact hN
    have hdecomp' : ∀ sl, sl < N →
        (dir.set (slot_of shift t + 1)
          ((off (slot_of shift t) + s) * 2 ^ 16 + bl (slot_of shift t))).getD (sl + 1) 0
        = (if sl = slot_of shift t then off (slot_of shift t) + s else off sl) * 2 ^ 16
            + bl sl := by
      intro sl hsl
      by_cases h : sl = slot_of shift t
      · subst h
        rw [if_pos rfl, getD_set_self (by omega)]
      · rw [if_neg h, getD_set_ne (by omega), hdecomp sl hsl]
    have hov' : ∀ sl, sl < N →
        (if sl = slot_of shift t then off (slot_of shift t) + s else off sl)
          + slot_count shift data sl * s < 2 ^ 48 := by
      intro sl hsl
      by_cases h : sl = slot_of shift t
      · subst h
        rw [if_pos rfl]
        have h1 := hov _ hsl0
        rw [hcnt0, hmul0] at h1
        omega
      · rw [if_neg h]
        have h1 := hov sl hsl
        rw [hcnt_ne sl h] at h1
        exact h1
    have hal' : ∀ sl, sl < N →
        8 ∣ (if sl = slot_of shift t then off (slot_of shift t) + s else off sl) := by
      intro sl hsl
      by_cases h : sl = slot_of shift t
      · subst h
        rw [if_pos rfl]
        exact ⟨q0 + f, by omega⟩
      · rw [if_neg h]
        exact hal sl hsl
    have hcap' : ∀ sl, sl < N →
        (if sl = slot_of shift t then off (slot_of shift t) + s else off sl)
          + slot_count shift data sl * s
          ≤ 8 * (set_words st (off (slot_of shift t) / 8) t.words).length := by
      intro sl hsl
      rw [set_words_length]
      by_cases h : sl = slot_of shift t
      · subst h
        rw [if_pos rfl]
        have h1 := hcap _ hsl0
        rw [hcnt0, hmul0] at h1
        omega
      · rw [if_neg h]
        have h1 := hcap sl hsl
        rw [hcnt_ne sl h] at h1
        exact h1
    have hdisj' : ∀ sl sl2, sl < N → sl2 < N → sl ≠ sl2 →
        (if sl = slot_of shift t then off (slot_of shift t) + s else off sl)
          + slot_count shift data sl * s
          ≤ (if sl2 = slot_of shift t then off (slot_of shift t) + s else off sl2) ∨
        (if sl2 = slot_of shift t then off (slot_of shift t) + s else off sl2)
          + slot_count shift data sl2 * s
          ≤ (if sl = slot_of shift t then off (slot_of shift t) + s else off sl) := by
      intro sl sl2 hsl hsl2 hne
      have e1 : (if sl = slot_of shift t then off (slot_of shift t) + s else off sl)
          + slot_count shift data sl * s
          = off sl + slot_count shift (t :: data) sl * s := by
        by_cases h : sl = slot_of shift t
        · subst h
          rw [if_pos rfl, hcnt0, hmul0]
          omega
        · rw [if_neg h, hcnt_ne sl h]
      have e2 : (if sl2 = slot_of shift t then off (slot_of shift t) + s else off sl2)
          + slot_count shift data sl2 * s
          = off sl2 + slot_count shift (t :: data) sl2 * s := by
        by_cases h : sl2 = slot_of shift t
        · subst h
          rw [if_pos rfl, hcnt0, hmul0]
          omega
        · rw [if_neg h, hcnt_ne sl2 h]
      have ge1 : off sl ≤ (if sl = slot_of shift t then off (slot_of shift t) + s else off sl) := by
        by_cases h : sl = slot_of shift t
        · subst h
          rw [if_pos rfl]
          omega
        · rw [if_neg h]
      have ge2 : off sl2 ≤ (if sl2 = slot_of shift t then off (slot_of shift t) + s else off sl2) := by
        by_cases h : sl2 = slot_of shift t
        · subst h
          rw [if_pos rfl]
          omega
        · rw [if_neg h]
      rcases hdisj sl sl2 hsl hsl2 hne with hd | hd
      · left
        omega
      · right
        omega
    obtain ⟨ih1, ih2, ih3, ih4, ih5, ih6⟩ :=
      ih (dir.set (slot_of shift t + 1)
            ((off (slot_of shift t) + s) * 2 ^ 16 + bl (slot_of shift t)))
        (set_words st (off (slot_of shift t) / 8) t.words)
        (fun sl => if sl = slot_of shift t then off (slot_of shift t) + s else off sl) bl
        (fun t2 ht2 => hwords t2 (List.mem_cons_of_mem t ht2))
        hN' hdecomp' hbl hov' hal' hcap' hdisj'
    rw [hunfold]
    refine ⟨?_, ?_, ?_, ?_, ?_, ?_⟩
    · rw [ih1, List.length_set]
    · rw [ih2, set_words_length]
    · intro sl hsl
      by_cases h : sl = slot_of shift t
      · subst h
        rw [ih3 _ hsl, if_pos rfl, hcnt0, hmul0]
        have harith : off (slot_of shift t) + s
              + slot_count shift data (slot_of shift t) * s
            = off (slot_of shift t)
              + (slot_count shift data (slot_of shift t) * s + s) := by
          omega
        rw [harith]
      · rw [ih3 _ hsl, if_neg h, hcnt_ne sl h]
    · intro j hj
      rw [ih4 j hj, getD_set_ne (hj _ hsl0)]
    · intro sl hsl i hi
      by_cases h : sl = slot_of shift t
      · subst h
        rw [group_words_cons, if_pos rfl]
        rw [hcnt0] at hi
        by_cases hil : i < f
        · have hout : ∀ sl2, sl2 < N →
              ¬ ((if sl2 = slot_of shift t then off (slot_of shift t) + s else off sl2) / 8
                    ≤ off (slot_of shift t) / 8 + i ∧
                 off (slot_of shift t) / 8 + i
                   < (if sl2 = slot_of shift t then off (slot_of shift t) + s else off sl2) / 8
                      + slot_count shift data sl2 * f) := by
            intro sl2 hsl2
            by_cases h2 : sl2 = slot_of shift t
            · subst h2
              rw [if_pos rfl, hdiv8]
              intro hcontra
              omega
            · rw [if_neg h2]
              intro hcontra
              obtain ⟨q2, hq2⟩ := hal sl2 hsl2
              have hms : slot_count shift data sl2 * s
                  = 8 * (slot_count shift data sl2 * f) := by
                rw [hs]
                ring
              have hcnt0ge : s ≤ slot_count shift (t :: data) (slot_of shift t) * s := by
                rw [hcnt0, hmul0]
                omega
              rcases hdisj sl2 (slot_of shift t) hsl2 hsl0 h2 with hd | hd
              · rw [hcnt_ne sl2 h2] at hd
                omega
              · omega
          rw [ih6 _ hout]
          rw [set_words_getD_in t.words st _ i (by rw [hwlen]; omega)
            (by rw [hwlen]; omega)]
          rw [getD_append_left (by rw [hwlen]; omega)]
        · have hi2 : i - f < slot_count shift data (slot_of shift t) * f := by
            rw [hmulf] at hi
            omega
          have hrec := ih5 (slot_of shift t) hsl0 (i - f) hi2
          rw [if_pos rfl, hdiv8] at hrec
          have hpos_eq : off (slot_of shift t) / 8 + f + (i - f)
              = off (slot_of shift t) / 8 + i := by
            omega
          rw [hpos_eq] at hrec
          rw [hrec, getD_append_right (by rw [hwlen]; omega), hwlen]
      · rw [group_words_cons, if_neg (fun he => h he.symm)]
        rw [hcnt_ne sl h] at hi
        have hrec := ih5 sl hsl i hi
        rw [if_neg h] at hrec
        exact hrec
    · intro w hw
      have hout : ∀ sl, sl < N →
          ¬ ((if sl = slot_of shift t then off (slot_of shift t) + s else off sl) / 8 ≤ w ∧
             w < (if sl = slot_of shift t then off (slot_of shift t) + s else off sl) / 8
                  + slot_count shift data sl * f) := by
        intro sl hsl
        by_cases h : sl = slot_of shift t
        · subst h
          rw [if_pos rfl, hdiv8]
          have hnt := hw _ hsl0
          rw [hcnt0, hmulf] at hnt
          intro hcontra
          omega
        · rw [if_neg h]
          have hnt := hw sl hsl
          rw [hcnt_ne sl h] at hnt
          exact hnt
      rw [ih6 w hout]
      apply set_words_getD_out
      have hnt := hw _ hsl0
      rw [hcnt0, hmulf] at hnt
      rw [hwlen]
      omega

end Sch

namespace Sch

/- ===== Scan loop characterization ===== -/

theorem scan_slot_groups (s f key : Nat) (hf : 0 < f) (hs : s = 8 * f) :
    ∀ (G : List Tuple) (W : Nat) (storage : List Nat),
      (∀ t ∈ G, t.words.length = f) →
      (∀ i, i < G.length * f → storage.getD (W + i) 0
          = ((G.map Tuple.words).flatten).getD i 0) →
      scan_slot storage s key f (8 * W) G.length
        = (G.filter (fun t => t.key == key)).map Tuple.words := by
  intro G
  induction G with
  | nil => intro W storage _ _; rfl
  | cons t G ihG =>
    intro W storage hlen hpt
    have htw : t.words.length = f := hlen t (List.mem_cons_self t G)
    have hmulf : (G.length + 1) * f = G.length * f + f := Nat.succ_mul _ _
    have hhead : ∀ j, j < f → storage.getD (W + j) 0 = t.words.getD j 0 := by
      intro j hj
      rw [hpt j (by simp only [List.length_cons]; omega)]
      show (t.words ++ (G.map Tuple.words).flatten).getD j 0 = _
      rw [getD_append_left (by rw [htw]; omega)]
    have hkey0 : storage.getD W 0 = t.key := by
      have h00 := hhead 0 hf
      rw [Nat.add_zero] at h00
      exact h00.trans rfl
    have hslice : slice_words storage W f = t.words := by
      apply List.ext_getElem
      · show (List.map _ (List.range f)).length = _
        rw [List.length_map, List.length_range, htw]
      · intro j h1 h2
        show (List.map (fun j => storage.getD (W + j) 0) (List.range f))[j] = _
        rw [List.getElem_map, List.getElem_range]
        rw [hhead j (htw ▸ h2)]
        rw [List.getD_eq_getElem _ _ h2]
    have h0 : (8 * W + 0 * s) / 8 = W := by omega
    have hbody0 : (if storage.getD ((8 * W + 0 * s) / 8) 0 = key
        then some (slice_words storage ((8 * W + 0 * s) / 8) f) else none)
        = if t.key = key then some t.words else none := by
      rw [h0, hkey0, hslice]
    have hpt2 : ∀ i, i < G.length * f → storage.getD (W + f + i) 0
        = ((G.map Tuple.words).flatten).getD i 0 := by
      intro i hi
      have hWfi : W + f + i = W + (f + i) := by omega
      rw [hWfi, hpt (f + i) (by simp only [List.length_cons]; omega)]
      show (t.words ++ (G.map Tuple.words).flatten).getD (f + i) 0 = _
      rw [getD_append_right (by rw [htw]; omega), htw]
      congr 1
      omega
    have htail : ∀ i : Nat, (8 * W + Nat.succ i * s) = 8 * (W + f) + i * s := by
      intro i
      have hsucc : Nat.succ i * s = i * s + s := Nat.succ_mul _ _
      rw [hsucc, hs]
      ring
    have hrec := ihG (W + f) storage
      (fun t2 ht2 => hlen t2 (List.mem_cons_of_mem t ht2)) hpt2
    have htaileq : (List.range G.length).filterMap
        ((fun i => if storage.getD ((8 * W + i * s) / 8) 0 = key
          then some (slice_words storage ((8 * W + i * s) / 8) f) else none) ∘ Nat.succ)
        = (G.filter (fun t2 => t2.key == key)).map Tuple.words := by
      rw [← hrec]
      show (List.range G.length).filterMap _
          = (List.range G.length).filterMap
            (fun i => if storage.getD ((8 * (W + f) + i * s) / 8) 0 = key
              then some (slice_words storage ((8 * (W + f) + i * s) / 8) f) else none)
      apply List.filterMap_congr
      intro i _
      show (if storage.getD ((8 * W + Nat.succ i * s) / 8) 0 = key
          then some (slice_words storage ((8 * W + Nat.succ i * s) / 8) f) else none) = _
      rw [htail i]
    show (List.range (G.length + 1)).filterMap
        (fun i => if storage.getD ((8 * W + i * s) / 8) 0 = key
          then some (slice_words storage ((8 * W + i * s) / 8) f) else none)
        = ((t :: G).filter (fun t2 => t2.key == key)).map Tuple.words
    rw [List.range_succ_eq_map, List.filter_cons]
    by_cases hk : t.key = key
    · rw [List.filterMap_cons_some (by rw [hbody0, if_pos hk]),
        List.filterMap_map, htaileq, if_pos (by simpa using hk), List.map_cons]
    · rw [List.filterMap_cons_none (by rw [hbody0, if_neg hk]),
        List.filterMap_map, htaileq, if_neg (by simpa using hk)]

end Sch

namespace Sch

/- ===== Assembled build pipeline spec ===== -/

theorem hash_slot_lt (k key : Nat) (hk : k ≤ 64) :
    (HashPair.hash key).slot >>> (64 - k) < 2 ^ k := by
  have hv : (HashPair.hash key).slot < 2 ^ 64 := by
    show key * FIBONACCI % 2 ^ 64 < 2 ^ 64
    exact Nat.mod_lt _ (by positivity)
  rw [Nat.shiftRight_eq_div_pow]
  apply Nat.div_lt_of_lt_mul
  calc (HashPair.hash key).slot < 2 ^ 64 := hv
    _ = 2 ^ (64 - k) * 2 ^ k := by
        rw [← Nat.pow_add]
        congr 1
        omega

theorem slot_of_lt (k : Nat) (t : Tuple) (hk : k ≤ 64) :
    slot_of (64 - k) t < 2 ^ k :=
  hash_slot_lt k t.key hk

theorem count_below_le (shift : Nat) (data : List Tuple) (sl : Nat) :
    count_below shift data sl ≤ data.length :=
  List.length_filter_le _ _

theorem build_core_spec (f k : Nat) (data : List Tuple) (dirF stF : List Nat)
    (hf : 0 < f) (hk : k ≤ 63)
    (hwords : ∀ t ∈ data, t.words.length = f)
    (hsize : data.length * (8 * f) < 2 ^ 48)
    (hdirF : dirF = (build_phase3 (8 * f) (64 - k)
        (build_phase2 (build_phase1 (8 * f) (64 - k)
          (List.replicate (2 ^ k + 1) DirectoryEntry.EMPTY) data),
         List.replicate (data.length * (8 * f) / 8) 0) data).1)
    (hstF : stF = (build_phase3 (8 * f) (64 - k)
        (build_phase2 (build_phase1 (8 * f) (64 - k)
          (List.replicate (2 ^ k + 1) DirectoryEntry.EMPTY) data),
         List.replicate (data.length * (8 * f) / 8) 0) data).2) :
    dirF.length = 2 ^ k + 1 ∧ dirF.getD 0 0 = 0 ∧
    (∀ sl, sl < 2 ^ k → dirF.getD (sl + 1) 0
        = count_below (64 - k) data (sl + 1) * (8 * f) * 2 ^ 16
          + bloom_or (64 - k) data sl) ∧
    stF.length = data.length * f ∧
    (∀ sl, sl < 2 ^ k → ∀ i, i < slot_count (64 - k) data sl * f →
        stF.getD (count_below (64 - k) data sl * f + i) 0
          = (group_words (64 - k) data sl).getD i 0) := by
  subst hdirF hstF
  have hslots : ∀ t ∈ data, slot_of (64 - k) t < 2 ^ k :=
    fun t _ => slot_of_lt k t (by omega)
  obtain ⟨hd2len, hd20, hd2⟩ :=
    dir2_spec (8 * f) (64 - k) (2 ^ k) data hslots hsize
  have hbytes_mul : ∀ c : Nat, c * (8 * f) = 8 * (c * f) := by
    intro c
    ring
  have hstlen : (List.replicate (data.length * (8 * f) / 8) 0).length
      = data.length * f := by
    rw [List.length_replicate, hbytes_mul]
    exact Nat.mul_div_cancel_left _ (by omega)
  have hoffdiv : ∀ sl : Nat, count_below (64 - k) data sl * (8 * f) / 8
      = count_below (64 - k) data sl * f := by
    intro sl
    rw [hbytes_mul]
    exact Nat.mul_div_cancel_left _ (by omega)
  have hcb_succ_le : ∀ sl : Nat,
      count_below (64 - k) data sl + slot_count (64 - k) data sl
        = count_below (64 - k) data (sl + 1) := by
    intro sl
    rw [count_below_succ]
  have hcb_bound : ∀ sl : Nat,
      count_below (64 - k) data (sl + 1) * (8 * f) ≤ data.length * (8 * f) :=
    fun sl => Nat.mul_le_mul_right _ (count_below_le _ _ _)
  obtain ⟨ph1, ph2, ph3, ph4, ph5, ph6⟩ :=
    build_phase3_spec (8 * f) f (2 ^ k) (64 - k) hf rfl data
      (build_phase2 (build_phase1 (8 * f) (64 - k)
        (List.replicate (2 ^ k + 1) DirectoryEntry.EMPTY) data))
      (List.replicate (data.length * (8 * f) / 8) 0)
      (fun sl => count_below (64 - k) data sl * (8 * f))
      (fun sl => bloom_or (64 - k) data sl)
      (fun t ht => ⟨hslots t ht, hwords t ht⟩)
      (by rw [hd2len]; omega)
      (fun sl hsl => hd2 sl hsl)
      (fun sl _ => bloom_or_lt _ _ _)
      (fun sl hsl => by
        dsimp only
        have h1 : count_below (64 - k) data sl * (8 * f)
            + slot_count (64 - k) data sl * (8 * f)
            = count_below (64 - k) data (sl + 1) * (8 * f) := by
          rw [← hcb_succ_le sl]
          ring
        have h2 := hcb_bound sl
        omega)
      (fun sl _ => ⟨count_below (64 - k) data sl * f, hbytes_mul _⟩)
      (fun sl hsl => by
        dsimp only
        rw [hstlen]
        have h1 : count_below (64 - k) data sl * (8 * f)
            + slot_count (64 - k) data sl * (8 * f)
            = count_below (64 - k) data (sl + 1) * (8 * f) := by
          rw [← hcb_succ_le sl]
          ring
        have h2 := hcb_bound sl
        have h3 := hbytes_mul data.length
        omega)
      (fun sl sl2 hsl hsl2 hne => by
        dsimp only
        rcases Nat.lt_or_ge sl sl2 with hlt | hge
        · left
          have h1 : count_below (64 - k) data sl * (8 * f)
              + slot_count (64 - k) data sl * (8 * f)
              = count_below (64 - k) data (sl + 1) * (8 * f) := by
            rw [← hcb_succ_le sl]
            ring
          have h2 : count_below (64 - k) data (sl + 1)
              ≤ count_below (64 - k) data sl2 := count_below_mono _ _ (by omega)
          have h3 : count_below (64 - k) data (sl + 1) * (8 * f)
              ≤ count_below (64 - k) data sl2 * (8 * f) :=
            Nat.mul_le_mul_right _ h2
          omega
        · right
          have hlt2 : sl2 < sl := by omega
          have h1 : count_below (64 - k) data sl2 * (8 * f)
              + slot_count (64 - k) data sl2 * (8 * f)
              = count_below (64 - k) data (sl2 + 1) * (8 * f) := by
            rw [← hcb_succ_le sl2]
            ring
          have h2 : count_below (64 - k) data (sl2 + 1)
              ≤ count_below (64 - k) data sl := count_below_mono _ _ (by omega)
          have h3 : count_below (64 - k) data (sl2 + 1) * (8 * f)
              ≤ count_below (64 - k) data sl * (8 * f) :=
            Nat.mul_le_mul_right _ h2
          omega)
  refine ⟨?_, ?_, ?_, ?_, ?_⟩
  · rw [ph1, hd2len]
  · rw [ph4 0 (fun sl _ => by omega), hd20]
  · intro sl hsl
    rw [ph3 sl hsl]
    have h1 : count_below (64 - k) data sl * (8 * f)
        + slot_count (64 - k) data sl * (8 * f)
        = count_below (64 - k) data (sl + 1) * (8 * f) := by
      rw [← hcb_succ_le sl]
      ring
    rw [h1]
  · rw [ph2, hstlen]
  · intro sl hsl i hi
    have := ph5 sl hsl i hi
    rw [hoffdiv sl] at this
    exact this

end Sch

namespace Sch

theorem probe_spec_table (f k key : Nat) (data : List Tuple) (tb : UnchainedHashTable)
    (hf : 0 < f) (hk : k ≤ 63)
    (hshift : tb.shift = 64 - k)
    (hstride : tb.tuple_stride = 8 * f)
    (hwords : ∀ t ∈ data, t.words.length = f)
    (hdir0 : tb.directory.getD 0 0 = 0)
    (hdir : ∀ sl, sl < 2 ^ k → tb.directory.getD (sl + 1) 0
        = count_below (64 - k) data (sl + 1) * (8 * f) * 2 ^ 16
          + bloom_or (64 - k) data sl)
    (hstor : ∀ sl, sl < 2 ^ k → ∀ i, i < slot_count (64 - k) data sl * f →
        tb.tuple_storage.getD (count_below (64 - k) data sl * f + i) 0
          = (group_words (64 - k) data sl).getD i 0) :
    tb.probe key = (data.filter (fun t => t.key == key)).map Tuple.words := by
  have hslk : (HashPair.hash key).slot >>> (64 - k) < 2 ^ k :=
    hash_slot_lt k key (by omega)
  show (if bloom_check_tag (bloom_get_tag (HashPair.hash key).filter)
        (DirectoryEntry.bloom
          (tb.directory.getD ((HashPair.hash key).slot >>> tb.shift + 1) 0)) = false
      then []
      else scan_slot tb.tuple_storage tb.tuple_stride key (tb.tuple_stride / 8)
        (DirectoryEntry.offset
          (tb.directory.getD ((HashPair.hash key).slot >>> tb.shift) 0))
        ((DirectoryEntry.offset
            (tb.directory.getD ((HashPair.hash key).slot >>> tb.shift + 1) 0)
          - DirectoryEntry.offset
            (tb.directory.getD ((HashPair.hash key).slot >>> tb.shift) 0)
          + (tb.tuple_stride - 1)) / tb.tuple_stride))
      = (data.filter (fun t => t.key == key)).map Tuple.words
  rw [hshift, hstride]
  generalize hslkeq : (HashPair.hash key).slot >>> (64 - k) = slk at hslk ⊢
  rw [hdir slk hslk, DirectoryEntry.bloom_eq (bloom_or_lt _ _ _),
    DirectoryEntry.offset_eq (bloom_or_lt _ _ _)]
  have hstart : DirectoryEntry.offset (tb.directory.getD slk 0)
      = count_below (64 - k) data slk * (8 * f) := by
    by_cases h0 : slk = 0
    · rw [h0, hdir0, count_below_zero]
      show (0 : Nat) >>> 16 = 0 * (8 * f)
      simp
    · obtain ⟨m, hm⟩ := Nat.exists_eq_succ_of_ne_zero h0
      rw [hm] at hslk ⊢
      rw [hdir m (by omega), DirectoryEntry.offset_eq (bloom_or_lt _ _ _)]
  have hprod : count_below (64 - k) data (slk + 1) * (8 * f)
      = count_below (64 - k) data slk * (8 * f)
        + slot_count (64 - k) data slk * (8 * f) := by
    rw [count_below_succ]
    ring
  have hcount : (count_below (64 - k) data (slk + 1) * (8 * f)
        - count_below (64 - k) data slk * (8 * f) + (8 * f - 1)) / (8 * f)
      = slot_count (64 - k) data slk := by
    have hdiff : count_below (64 - k) data (slk + 1) * (8 * f)
        - count_below (64 - k) data slk * (8 * f)
        = slot_count (64 - k) data slk * (8 * f) := by
      omega
    rw [hdiff, Nat.mul_comm (slot_count (64 - k) data slk) (8 * f),
      Nat.mul_add_div (by omega), Nat.div_eq_of_lt (by omega), Nat.add_zero]
  have hfields : 8 * f / 8 = f := Nat.mul_div_cancel_left f (by omega)
  have hGlen : slot_count (64 - k) data slk
      = (data.filter (fun t => slot_of (64 - k) t == slk)).length := rfl
  have hW : count_below (64 - k) data slk * (8 * f)
      = 8 * (count_below (64 - k) data slk * f) := by
    ring
  have hexch : (data.filter (fun t => slot_of (64 - k) t == slk)).filter
        (fun t => t.key == key)
      = data.filter (fun t => t.key == key) := by
    rw [List.filter_filter]
    apply List.filter_congr
    intro t ht
    by_cases hk2 : t.key = key
    · have hslot : slot_of (64 - k) t = slk := by
        unfold slot_of
        rw [hk2, hslkeq]
      simp [hk2, hslot]
    · simp [hk2]
  by_cases hb : bloom_check_tag (bloom_get_tag (HashPair.hash key).filter)
      (bloom_or (64 - k) data slk) = false
  · rw [if_pos hb]
    have hempty : data.filter (fun t => t.key == key) = [] := by
      rcases hfe : data.filter (fun t => t.key == key) with - | ⟨t0, rest⟩
      · exact hfe
      · exfalso
        have ht0 : t0 ∈ data.filter (fun t => t.key == key) := by
          rw [hfe]
          exact List.mem_cons_self _ _
        obtain ⟨ht0d, ht0k⟩ := List.mem_filter.mp ht0
        have hk2 : t0.key = key := by simpa using ht0k
        have hslot : slot_of (64 - k) t0 = slk := by
          unfold slot_of
          rw [hk2, hslkeq]
        have hmem : tag_of t0 ∈ (data.filter
            (fun t => slot_of (64 - k) t == slk)).map tag_of :=
          List.mem_map_of_mem _ (List.mem_filter.mpr ⟨ht0d, by simp [hslot]⟩)
        have habs := foldl_or_absorb
          ((data.filter (fun t => slot_of (64 - k) t == slk)).map tag_of)
          0 (tag_of t0) (Or.inl hmem)
        have htg : tag_of t0 = bloom_get_tag (HashPair.hash key).filter := by
          unfold tag_of
          rw [hk2]
        have htrue : bloom_check_tag (bloom_get_tag (HashPair.hash key).filter)
            (bloom_or (64 - k) data slk) = true := by
          unfold bloom_check_tag bloom_or
          rw [← htg]
          simp [habs]
        rw [htrue] at hb
        exact absurd hb (by simp)
    rw [hempty]
    rfl
  · rw [if_neg hb, hstart, hcount, hfields, hGlen, hW]
    rw [scan_slot_groups (8 * f) f key hf rfl
      (data.filter (fun t => slot_of (64 - k) t == slk))
      (count_below (64 - k) data slk * f) tb.tuple_storage
      (fun t2 ht2 => hwords t2 (List.mem_of_mem_filter ht2))
      (fun i hi => hstor slk hslk i (by rw [hGlen]; exact hi))]
    rw [hexch]

end Sch

namespace Sch

/- ===== Collector and merge content (multiset level) ===== -/

theorem coe_flatten {α : Type} (ls : List (List α)) :
    Multiset.ofList ls.flatten = (ls.map Multiset.ofList).sum := by
  induction ls with
  | nil => rfl
  | cons l ls ih =>
    show Multiset.ofList (l ++ ls.flatten) = _
    rw [← Multiset.coe_add, ih]
    rfl

theorem flatten_set_append {α : Type} (bs : List (List α)) (p : Nat) (x : α)
    (hp : p < bs.length) :
    (((bs.set p ((bs.getD p []) ++ [x])).flatten : List α) : Multiset α)
      = ((bs.flatten : List α) : Multiset α) + {x} := by
  induction bs generalizing p with
  | nil => simp at hp
  | cons b bs ih =>
    match p with
    | 0 =>
      show (((b ++ [x]) ++ bs.flatten : List α) : Multiset α)
          = ((b ++ bs.flatten : List α) : Multiset α) + {x}
      rw [← Multiset.coe_add, ← Multiset.coe_add, ← Multiset.coe_add,
        ← Multiset.coe_singleton]
      exact add_right_comm _ _ _
    | p + 1 =>
      show ((b ++ (bs.set p ((bs.getD p []) ++ [x])).flatten : List α) : Multiset α) = _
      rw [← Multiset.coe_add, ih p (by simpa using hp)]
      show _ = ((b ++ bs.flatten : List α) : Multiset α) + {x}
      rw [← Multiset.coe_add]
      exact (add_assoc _ _ _).symm

theorem collector_fold_spec (nps stride : Nat) (hnps : nps ≤ 64) :
    ∀ (L : List (Nat × List Nat)) (c : LocalCollector),
      c.buffers.length = 2 ^ nps →
      c.partition_shift = 64 - nps →
      ((L.foldl (fun c kp => c.insert kp.1 kp.2) c).buffers.length = 2 ^ nps ∧
       (L.foldl (fun c kp => c.insert kp.1 kp.2) c).tuple_count = c.tuple_count + L.length ∧
       (((L.foldl (fun c kp => c.insert kp.1 kp.2) c).buffers.flatten : List Tuple) : Multiset Tuple)
         = ((c.buffers.flatten : List Tuple) : Multiset Tuple)
           + ((L.map (fun kp => Tuple.mk kp.1 kp.2) : List Tuple) : Multiset Tuple)) := by
  intro L
  induction L with
  | nil =>
    intro c h1 h2
    refine ⟨h1, by simp, by simp⟩
  | cons kp L ih =>
    intro c h1 h2
    have hpart : (HashPair.hash kp.1).slot >>> c.partition_shift < c.buffers.length := by
      rw [h2, h1]
      exact hash_slot_lt nps kp.1 hnps
    have hc1 : (c.insert kp.1 kp.2).buffers.length = 2 ^ nps := by
      show (c.buffers.set _ _).length = 2 ^ nps
      rw [List.length_set, h1]
    have hc2 : (c.insert kp.1 kp.2).partition_shift = 64 - nps := h2
    obtain ⟨ih1, ih2, ih3⟩ := ih (c.insert kp.1 kp.2) hc1 hc2
    refine ⟨ih1, ?_, ?_⟩
    · show (List.foldl (fun c kp => c.insert kp.1 kp.2) (c.insert kp.1 kp.2) L).tuple_count
          = c.tuple_count + (kp :: L).length
      rw [ih2]
      show c.tuple_count + 1 + L.length = c.tuple_count + (L.length + 1)
      omega
    · have hstep : (((c.insert kp.1 kp.2).buffers.flatten : List Tuple) : Multiset Tuple)
          = ((c.buffers.flatten : List Tuple) : Multiset Tuple) + {Tuple.mk kp.1 kp.2} := by
        show (((c.buffers.set ((HashPair.hash kp.1).slot >>> c.partition_shift)
            ((c.buffers.getD ((HashPair.hash kp.1).slot >>> c.partition_shift) [])
              ++ [Tuple.mk kp.1 kp.2])).flatten : List Tuple) : Multiset Tuple) = _
        exact flatten_set_append c.buffers _ _ hpart
      show (((List.foldl (fun c kp => c.insert kp.1 kp.2)
            (c.insert kp.1 kp.2) L).buffers.flatten : List Tuple) : Multiset Tuple)
          = ((c.buffers.flatten : List Tuple) : Multiset Tuple)
            + (((kp :: L).map (fun kp => Tuple.mk kp.1 kp.2) : List Tuple) : Multiset Tuple)
      rw [ih3, hstep]
      show ((c.buffers.flatten : List Tuple) : Multiset Tuple) + {Tuple.mk kp.1 kp.2}
          + ((L.map (fun kp => Tuple.mk kp.1 kp.2) : List Tuple) : Multiset Tuple)
        = ((c.buffers.flatten : List Tuple) : Multiset Tuple)
          + ((Tuple.mk kp.1 kp.2
              :: L.map (fun kp => Tuple.mk kp.1 kp.2) : List Tuple) : Multiset Tuple)
      rw [← Multiset.cons_coe, ← Multiset.singleton_add, ← add_assoc]

theorem collector_of_spec (nps stride : Nat) (L : List (Nat × List Nat)) (hnps : nps ≤ 64) :
    (collector_of ⟨nps, stride⟩ L).buffers.length = 2 ^ nps ∧
    (collector_of ⟨nps, stride⟩ L).tuple_count = L.length ∧
    (((collector_of ⟨nps, stride⟩ L).buffers.flatten : List Tuple) : Multiset Tuple)
      = ((L.map (fun kp => Tuple.mk kp.1 kp.2) : List Tuple) : Multiset Tuple) := by
  have hnew1 : (LocalCollector.new ⟨nps, stride⟩).buffers.length = 2 ^ nps := by
    show (List.replicate (BuildConfig.num_partitions ⟨nps, stride⟩) []).length = 2 ^ nps
    rw [List.length_replicate]
    show 1 <<< nps = 2 ^ nps
    rw [Nat.shiftLeft_eq, Nat.one_mul]
  have hnew2 : (LocalCollector.new ⟨nps, stride⟩).partition_shift = 64 - nps := rfl
  obtain ⟨h1, h2, h3⟩ := collector_fold_spec nps stride hnps L (LocalCollector.new ⟨nps, stride⟩) hnew1 hnew2
  refine ⟨h1, ?_, ?_⟩
  · show (List.foldl (fun c kp => c.insert kp.1 kp.2) (LocalCollector.new ⟨nps, stride⟩) L).tuple_count
        = L.length
    rw [h2]
    show 0 + L.length = L.length
    rw [Nat.zero_add]
  show (((List.foldl (fun c kp => c.insert kp.1 kp.2)
        (LocalCollector.new ⟨nps, stride⟩) L).buffers.flatten : List Tuple) : Multiset Tuple) = _
  rw [h3]
  have hflat : (LocalCollector.new ⟨nps, stride⟩).buffers.flatten = ([] : List Tuple) := by
    show (List.replicate (BuildConfig.num_partitions ⟨nps, stride⟩) ([] : List Tuple)).flatten = []
    induction (BuildConfig.num_partitions ⟨nps, stride⟩) with
    | zero => rfl
    | succ n ihn =>
      rw [List.replicate_succ, List.flatten_cons, ihn]
      rfl
  rw [hflat]
  rfl

end Sch

namespace Sch

/- ===== Merge content (multiset level) ===== -/

theorem sum_map_zero_ms {α M : Type} [AddCommMonoid M] (l : List α) :
    (l.map (fun _ => (0 : M))).sum = 0 := by
  induction l with
  | nil => rfl
  | cons a l ih =>
    rw [List.map_cons, List.sum_cons, ih, add_zero]

theorem sum_map_add_ms {α M : Type} [AddCommMonoid M] (l : List α) (f g : α → M) :
    (l.map (fun x => f x + g x)).sum = (l.map f).sum + (l.map g).sum := by
  induction l with
  | nil =>
    show (0 : M) = 0 + 0
    rw [add_zero]
  | cons a l ih =>
    rw [List.map_cons, List.sum_cons, ih, List.map_cons, List.sum_cons,
      List.map_cons, List.sum_cons, add_add_add_comm]

theorem sum_sum_comm_ms {α β M : Type} [AddCommMonoid M] (l1 : List α) (l2 : List β)
    (f : α → β → M) :
    (l1.map (fun a => (l2.map (fun b => f a b)).sum)).sum
      = (l2.map (fun b => (l1.map (fun a => f a b)).sum)).sum := by
  induction l1 with
  | nil =>
    rw [List.map_nil, List.sum_nil]
    rw [show (fun b => ((List.map (fun a => f a b) ([] : List α)).sum : M))
        = fun _ => (0 : M) from rfl]
    rw [sum_map_zero_ms]
  | cons a l1 ih =>
    rw [List.map_cons, List.sum_cons, ih, ← sum_map_add_ms]
    rfl

theorem card_list_sum {α : Type} (ms : List (Multiset α)) :
    (ms.sum).card = (ms.map Multiset.card).sum := by
  induction ms with
  | nil => rfl
  | cons m ms ih =>
    rw [List.sum_cons, Multiset.card_add, ih, List.map_cons, List.sum_cons]

theorem mem_list_sum {α : Type} {a : α} (ms : List (Multiset α)) :
    a ∈ ms.sum ↔ ∃ m ∈ ms, a ∈ m := by
  induction ms with
  | nil =>
    constructor
    · intro h
      exact absurd h (Multiset.not_mem_zero a)
    · intro ⟨m, hm, _⟩
      exact absurd hm (List.not_mem_nil m)
  | cons m ms ih =>
    rw [List.sum_cons, Multiset.mem_add, ih]
    constructor
    · intro h
      rcases h with h | ⟨m', hm', ha⟩
      · exact ⟨m, List.mem_cons_self m ms, h⟩
      · exact ⟨m', List.mem_cons_of_mem m hm', ha⟩
    · intro ⟨m', hm', ha⟩
      rcases List.mem_cons.mp hm' with h | h
      · exact Or.inl (h ▸ ha)
      · exact Or.inr ⟨m', h, ha⟩

theorem range_getD_eq {α : Type} (bs : List (List α)) :
    (List.range bs.length).map (fun p => bs.getD p []) = bs := by
  induction bs with
  | nil => rfl
  | cons b bs ih =>
    rw [List.length_cons, List.range_succ_eq_map, List.map_cons, List.map_map]
    show b :: (List.range bs.length).map (fun p => bs.getD p []) = b :: bs
    rw [ih]

theorem flatten_range_range' (np mf : Nat) :
    ((List.range np).map (fun ep => List.range' (ep * mf) mf)).flatten
      = List.range (np * mf) := by
  induction np with
  | zero =>
    rw [Nat.zero_mul]
    rfl
  | succ n ih =>
    rw [List.range_succ, List.map_append, List.flatten_append, ih]
    show List.range (n * mf) ++ (List.range' (n * mf) mf ++ []) = _
    rw [List.append_nil, List.range_eq_range', List.range_eq_range']
    have h := List.range'_append 0 (n * mf) mf 1
    rw [Nat.one_mul, Nat.zero_add] at h
    rw [h, Nat.add_comm mf (n * mf)]
    rw [show n * mf + mf = (n + 1) * mf from by ring]

theorem flatten_map_flatten {α β : Type} (L : List β) (h : β → List (List α)) :
    (L.map (fun x => (h x).flatten)).flatten = ((L.map h).flatten).flatten := by
  rw [List.flatten_flatten, List.map_map]
  rfl

theorem flatten_map_comp {α β γ : Type} (L : List γ) (g : β → α) (h : γ → List β) :
    (L.map (fun x => (h x).map g)).flatten = ((L.map h).flatten).map g := by
  rw [List.map_flatten, List.map_map]
  rfl

theorem coe_flatten_map {α β : Type} (L : List β) (g : β → List α) :
    Multiset.ofList ((L.map g).flatten)
      = (L.map (fun x => Multiset.ofList (g x))).sum := by
  rw [coe_flatten, List.map_map]
  rfl

theorem merge_flatten_eq (cs : List LocalCollector) (np mf : Nat) :
    (merge_partitions cs np mf).flatten
      = ((List.range (np * mf)).map (fun origp =>
          (cs.map (fun c : LocalCollector => c.buffers.getD origp [])).flatten)).flatten := by
  have h1 : (merge_partitions cs np mf).flatten
      = (((List.range np).map (fun ep => (List.range' (ep * mf) mf).map (fun origp =>
          (cs.map (fun c : LocalCollector => c.buffers.getD origp [])).flatten))).flatten).flatten :=
    flatten_map_flatten (List.range np) (fun ep =>
      (List.range' (ep * mf) mf).map (fun origp =>
        (cs.map (fun c : LocalCollector => c.buffers.getD origp [])).flatten))
  have h2 : ((List.range np).map (fun ep => (List.range' (ep * mf) mf).map (fun origp =>
          (cs.map (fun c : LocalCollector => c.buffers.getD origp [])).flatten))).flatten
      = (((List.range np).map (fun ep => List.range' (ep * mf) mf)).flatten).map
          (fun origp => (cs.map (fun c : LocalCollector => c.buffers.getD origp [])).flatten) :=
    flatten_map_comp (List.range np)
      (fun origp => (cs.map (fun c : LocalCollector => c.buffers.getD origp [])).flatten)
      (fun ep => List.range' (ep * mf) mf)
  rw [h1, h2, flatten_range_range']

theorem merge_partitions_flatten (cs : List LocalCollector) (np mf : Nat)
    (hlen : ∀ c ∈ cs, c.buffers.length = np * mf) :
    Multiset.ofList (merge_partitions cs np mf).flatten
      = (cs.map (fun c => Multiset.ofList c.buffers.flatten)).sum := by
  rw [merge_flatten_eq cs np mf]
  rw [coe_flatten_map (List.range (np * mf))
    (fun origp => (cs.map (fun c : LocalCollector => c.buffers.getD origp [])).flatten)]
  have hg : ∀ p ∈ List.range (np * mf),
      Multiset.ofList ((cs.map (fun c : LocalCollector => c.buffers.getD p [])).flatten)
        = (cs.map (fun c => Multiset.ofList (c.buffers.getD p []))).sum := by
    intro p _
    exact coe_flatten_map cs (fun c : LocalCollector => c.buffers.getD p [])
  rw [List.map_congr_left hg]
  rw [sum_sum_comm_ms (List.range (np * mf)) cs
    (fun p c => Multiset.ofList (c.buffers.getD p []))]
  refine congrArg List.sum (List.map_congr_left ?_)
  intro c hc
  rw [← hlen c hc]
  have hmaps : (List.range c.buffers.length).map
      (fun p => Multiset.ofList (c.buffers.getD p []))
      = c.buffers.map Multiset.ofList := by
    rw [show (fun p => Multiset.ofList (c.buffers.getD p []))
        = (Multiset.ofList ∘ (fun p => c.buffers.getD p [])) from rfl]
    rw [← List.map_map, range_getD_eq]
  rw [hmaps, ← coe_flatten]

end Sch

namespace Sch

/- ===== The full build pipeline ===== -/

theorem build_full_spec (nps f : Nat) (cs : List LocalCollector)
    (hnps : nps ≤ 64) (hf : 0 < f)
    (hbuf : ∀ c ∈ cs, c.buffers.length = 2 ^ nps)
    (hwordsc : ∀ c ∈ cs, ∀ t ∈ c.buffers.flatten, t.words.length = f)
    (hcnt : (cs.map LocalCollector.tuple_count).sum
        = (cs.map (fun c => c.buffers.flatten.length)).sum)
    (hpos : 0 < (cs.map LocalCollector.tuple_count).sum)
    (hsize : (cs.map LocalCollector.tuple_count).sum * (8 * f) < 2 ^ 48) :
    ∃ (k : Nat) (data : List Tuple),
      k ≤ 63 ∧
      Multiset.ofList data
        = (cs.map (fun c => Multiset.ofList c.buffers.flatten)).sum ∧
      data.length = (cs.map LocalCollector.tuple_count).sum ∧
      (∀ t ∈ data, t.words.length = f) ∧
      (build cs ⟨nps, 8 * f⟩).shift = 64 - k ∧
      (build cs ⟨nps, 8 * f⟩).tuple_stride = 8 * f ∧
      (build cs ⟨nps, 8 * f⟩).directory.length = 2 ^ k + 1 ∧
      (build cs ⟨nps, 8 * f⟩).directory.getD 0 0 = 0 ∧
      (∀ sl, sl < 2 ^ k → (build cs ⟨nps, 8 * f⟩).directory.getD (sl + 1) 0
          = count_below (64 - k) data (sl + 1) * (8 * f) * 2 ^ 16
            + bloom_or (64 - k) data sl) ∧
      (build cs ⟨nps, 8 * f⟩).tuple_storage.length
        = (cs.map LocalCollector.tuple_count).sum * f ∧
      (∀ sl, sl < 2 ^ k → ∀ i, i < slot_count (64 - k) data sl * f →
          (build cs ⟨nps, 8 * f⟩).tuple_storage.getD
            (count_below (64 - k) data sl * f + i) 0
            = (group_words (64 - k) data sl).getD i 0) := by
  have hn0 : ¬ (cs.map LocalCollector.tuple_count).sum = 0 := by omega
  have h8f : 8 ≤ 8 * f := by
    have h := Nat.mul_le_mul_left 8 hf
    omega
  have hn8 : (cs.map LocalCollector.tuple_count).sum * 8
      ≤ (cs.map LocalCollector.tuple_count).sum * (8 * f) :=
    Nat.mul_le_mul_left _ h8f
  have hsmall : (cs.map LocalCollector.tuple_count).sum
      + (cs.map LocalCollector.tuple_count).sum / 8 ≤ 2 ^ 63 := by
    have hlt : (cs.map LocalCollector.tuple_count).sum * 8 < 2 ^ 48 :=
      Nat.lt_of_le_of_lt hn8 hsize
    omega
  obtain ⟨k, hk4, hk63, hN1, hN2, hge⟩ := compute_table_params_spec hsmall
  have hnpeq : BuildConfig.num_partitions ⟨nps, 8 * f⟩ = 2 ^ nps := by
    show 1 <<< nps = 2 ^ nps
    rw [Nat.shiftLeft_eq, Nat.one_mul]
  have hmin : ∃ j, j ≤ nps ∧ min (2 ^ nps) (2 ^ k) = 2 ^ j := by
    rcases Nat.le_total nps k with h | h
    · exact ⟨nps, Nat.le_refl _, by
        rw [Nat.min_eq_left (Nat.pow_le_pow_right (by omega) h)]⟩
    · exact ⟨k, h, by
        rw [Nat.min_eq_right (Nat.pow_le_pow_right (by omega) h)]⟩
  obtain ⟨j, hj, hminj⟩ := hmin
  have hnpmf : min (2 ^ nps) (2 ^ k) * (2 ^ nps / min (2 ^ nps) (2 ^ k)) = 2 ^ nps := by
    rw [hminj]
    exact Nat.mul_div_cancel' (pow_dvd_pow 2 hj)
  have hdata_ms : Multiset.ofList
        (merge_partitions cs (min (2 ^ nps) (2 ^ k))
          (2 ^ nps / min (2 ^ nps) (2 ^ k))).flatten
      = (cs.map (fun c => Multiset.ofList c.buffers.flatten)).sum := by
    refine merge_partitions_flatten cs _ _ ?_
    intro c hc
    rw [hbuf c hc, hnpmf]
  have hdatalen : (merge_partitions cs (min (2 ^ nps) (2 ^ k))
          (2 ^ nps / min (2 ^ nps) (2 ^ k))).flatten.length
      = (cs.map LocalCollector.tuple_count).sum := by
    have hcard := congrArg Multiset.card hdata_ms
    rw [Multiset.coe_card, card_list_sum, List.map_map] at hcard
    have hmc : ∀ c ∈ cs, (Multiset.card ∘ (fun c => Multiset.ofList c.buffers.flatten)) c
        = c.buffers.flatten.length := by
      intro c _
      exact Multiset.coe_card _
    rw [List.map_congr_left hmc] at hcard
    rw [hcard, hcnt]
  have hwords : ∀ t ∈ (merge_partitions cs (min (2 ^ nps) (2 ^ k))
          (2 ^ nps / min (2 ^ nps) (2 ^ k))).flatten, t.words.length = f := by
    intro t ht
    have htm : t ∈ Multiset.ofList (merge_partitions cs (min (2 ^ nps) (2 ^ k))
        (2 ^ nps / min (2 ^ nps) (2 ^ k))).flatten := Multiset.mem_coe.mpr ht
    rw [hdata_ms] at htm
    obtain ⟨m, hm, htm2⟩ := (mem_list_sum _).mp htm
    obtain ⟨c, hc, hcm⟩ := List.mem_map.mp hm
    exact hwordsc c hc t (Multiset.mem_coe.mp (hcm ▸ htm2))
  have hsize' : (merge_partitions cs (min (2 ^ nps) (2 ^ k))
          (2 ^ nps / min (2 ^ nps) (2 ^ k))).flatten.length * (8 * f) < 2 ^ 48 := by
    rw [hdatalen]
    exact hsize
  have hbuild : build cs ⟨nps, 8 * f⟩ =
      { directory := (build_phase3 (8 * f) (64 - k)
          (build_phase2 (build_phase1 (8 * f) (64 - k)
            (List.replicate (2 ^ k + 1) DirectoryEntry.EMPTY)
            (merge_partitions cs (min (2 ^ nps) (2 ^ k))
              (2 ^ nps / min (2 ^ nps) (2 ^ k))).flatten),
           List.replicate ((merge_partitions cs (min (2 ^ nps) (2 ^ k))
              (2 ^ nps / min (2 ^ nps) (2 ^ k))).flatten.length * (8 * f) / 8) 0)
          (merge_partitions cs (min (2 ^ nps) (2 ^ k))
            (2 ^ nps / min (2 ^ nps) (2 ^ k))).flatten).1,
        tuple_storage := (build_phase3 (8 * f) (64 - k)
          (build_phase2 (build_phase1 (8 * f) (64 - k)
            (List.replicate (2 ^ k + 1) DirectoryEntry.EMPTY)
            (merge_partitions cs (min (2 ^ nps) (2 ^ k))
              (2 ^ nps / min (2 ^ nps) (2 ^ k))).flatten),
           List.replicate ((merge_partitions cs (min (2 ^ nps) (2 ^ k))
              (2 ^ nps / min (2 ^ nps) (2 ^ k))).flatten.length * (8 * f) / 8) 0)
          (merge_partitions cs (min (2 ^ nps) (2 ^ k))
            (2 ^ nps / min (2 ^ nps) (2 ^ k))).flatten).2,
        shift := 64 - k,
        tuple_stride := 8 * f } := by
    simp only [build]
    rw [if_neg hn0, hN1, hN2, hnpeq, hdatalen]
  obtain ⟨hc1, hc2, hc3, hc4, hc5⟩ := build_core_spec f k
    (merge_partitions cs (min (2 ^ nps) (2 ^ k))
      (2 ^ nps / min (2 ^ nps) (2 ^ k))).flatten _ _ hf hk63 hwords hsize' rfl rfl
  refine ⟨k, (merge_partitions cs (min (2 ^ nps) (2 ^ k))
      (2 ^ nps / min (2 ^ nps) (2 ^ k))).flatten,
    hk63, hdata_ms, hdatalen, hwords, ?_, ?_, ?_, ?_, ?_, ?_, ?_⟩
  · rw [hbuild]
  · rw [hbuild]
  · rw [hbuild]
    exact hc1
  · rw [hbuild]
    exact hc2
  · intro sl hsl
    rw [hbuild]
    exact hc3 sl hsl
  · rw [hbuild]
    exact Eq.trans hc4 (by rw [hdatalen])
  · intro sl hsl i hi
    rw [hbuild]
    exact hc5 sl hsl i hi

end Sch

namespace Sch

theorem probe_empty (stride key : Nat) (hs : 0 < stride) :
    (UnchainedHashTable.empty stride).probe key = [] := by
  have hget : ∀ i : Nat, ((List.replicate ((compute_table_params 0).1 + 1)
      DirectoryEntry.EMPTY).getD i 0) = 0 := by
    intro i
    rw [Nblfq.getD_replicate]
    split
    · rfl
    · rfl
  show (if bloom_check_tag (bloom_get_tag (HashPair.hash key).filter)
        (DirectoryEntry.bloom ((List.replicate ((compute_table_params 0).1 + 1)
          DirectoryEntry.EMPTY).getD
          ((HashPair.hash key).slot >>> (compute_table_params 0).2 + 1) 0)) = false
      then []
      else scan_slot [] stride key (stride / 8)
        (DirectoryEntry.offset ((List.replicate ((compute_table_params 0).1 + 1)
          DirectoryEntry.EMPTY).getD
          ((HashPair.hash key).slot >>> (compute_table_params 0).2) 0))
        ((DirectoryEntry.offset ((List.replicate ((compute_table_params 0).1 + 1)
            DirectoryEntry.EMPTY).getD
            ((HashPair.hash key).slot >>> (compute_table_params 0).2 + 1) 0)
          - DirectoryEntry.offset ((List.replicate ((compute_table_params 0).1 + 1)
            DirectoryEntry.EMPTY).getD
            ((HashPair.hash key).slot >>> (compute_table_params 0).2) 0)
          + (stride - 1)) / stride)) = []
  rw [hget, hget]
  split
  · rfl
  · have hoff : DirectoryEntry.offset 0 = 0 := rfl
    rw [hoff]
    have hcnt : (0 - 0 + (stride - 1)) / stride = 0 := Nat.div_eq_of_lt (by omega)
    rw [hcnt]
    rfl

theorem build_inserts_spec (nps f : Nat) (inserts : List (List (Nat × List Nat)))
    (hnps : nps ≤ 64) (hf : 0 < f)
    (hpay : ∀ l ∈ inserts, ∀ kp ∈ l, kp.2.length + 1 = f)
    (hsize : inserts.flatten.length * (8 * f) < 2 ^ 48)
    (h0 : inserts.flatten.length ≠ 0) :
    ∃ (k : Nat) (data : List Tuple),
      k ≤ 63 ∧
      Multiset.ofList data
        = Multiset.ofList (inserts.flatten.map (fun kp => Tuple.mk kp.1 kp.2)) ∧
      data.length = inserts.flatten.length ∧
      (∀ t ∈ data, t.words.length = f) ∧
      (build (inserts.map (collector_of ⟨nps, 8 * f⟩)) ⟨nps, 8 * f⟩).shift = 64 - k ∧
      (build (inserts.map (collector_of ⟨nps, 8 * f⟩)) ⟨nps, 8 * f⟩).tuple_stride
        = 8 * f ∧
      (build (inserts.map (collector_of ⟨nps, 8 * f⟩)) ⟨nps, 8 * f⟩).directory.length
        = 2 ^ k + 1 ∧
      (build (inserts.map (collector_of ⟨nps, 8 * f⟩)) ⟨nps, 8 * f⟩).directory.getD 0 0
        = 0 ∧
      (∀ sl, sl < 2 ^ k →
          (build (inserts.map (collector_of ⟨nps, 8 * f⟩)) ⟨nps, 8 * f⟩).directory.getD
            (sl + 1) 0
          = count_below (64 - k) data (sl + 1) * (8 * f) * 2 ^ 16
            + bloom_or (64 - k) data sl) ∧
      (build (inserts.map (collector_of ⟨nps, 8 * f⟩)) ⟨nps, 8 * f⟩).tuple_storage.length
        = inserts.flatten.length * f ∧
      (∀ sl, sl < 2 ^ k → ∀ i, i < slot_count (64 - k) data sl * f →
          (build (inserts.map (collector_of ⟨nps, 8 * f⟩))
            ⟨nps, 8 * f⟩).tuple_storage.getD
            (count_below (64 - k) data sl * f + i) 0
            = (group_words (64 - k) data sl).getD i 0) := by
  have htc : ((inserts.map (collector_of ⟨nps, 8 * f⟩)).map LocalCollector.tuple_count).sum
      = inserts.flatten.length := by
    rw [List.map_map]
    have h1 : ∀ l ∈ inserts, (LocalCollector.tuple_count ∘ collector_of ⟨nps, 8 * f⟩) l
        = List.length l := by
      intro l _
      exact (collector_of_spec nps (8 * f) l hnps).2.1
    rw [List.map_congr_left h1, List.length_flatten]
  have hflatl : ∀ l ∈ inserts,
      Multiset.ofList (collector_of ⟨nps, 8 * f⟩ l).buffers.flatten
        = Multiset.ofList (l.map (fun kp => Tuple.mk kp.1 kp.2)) :=
    fun l _ => (collector_of_spec nps (8 * f) l hnps).2.2
  have hpos : 0 < ((inserts.map (collector_of ⟨nps, 8 * f⟩)).map
      LocalCollector.tuple_count).sum := by
    rw [htc]
    omega
  have hbuf : ∀ c ∈ inserts.map (collector_of ⟨nps, 8 * f⟩),
      c.buffers.length = 2 ^ nps := by
    intro c hc
    obtain ⟨l, hl, hlc⟩ := List.mem_map.mp hc
    rw [← hlc]
    exact (collector_of_spec nps (8 * f) l hnps).1
  have hwordsc : ∀ c ∈ inserts.map (collector_of ⟨nps, 8 * f⟩),
      ∀ t ∈ c.buffers.flatten, t.words.length = f := by
    intro c hc t ht
    obtain ⟨l, hl, hlc⟩ := List.mem_map.mp hc
    have htm : t ∈ Multiset.ofList (collector_of ⟨nps, 8 * f⟩ l).buffers.flatten := by
      rw [hlc]
      exact Multiset.mem_coe.mpr ht
    rw [hflatl l hl] at htm
    obtain ⟨kp, hkp, hkpt⟩ := List.mem_map.mp (Multiset.mem_coe.mp htm)
    rw [← hkpt]
    show (kp.1 :: kp.2).length = f
    rw [List.length_cons]
    exact hpay l hl kp hkp
  have hcnt : ((inserts.map (collector_of ⟨nps, 8 * f⟩)).map
        LocalCollector.tuple_count).sum
      = ((inserts.map (collector_of ⟨nps, 8 * f⟩)).map
        (fun c => c.buffers.flatten.length)).sum := by
    rw [List.map_map, List.map_map]
    refine congrArg List.sum (List.map_congr_left ?_)
    intro l hl
    show (collector_of ⟨nps, 8 * f⟩ l).tuple_count
        = (collector_of ⟨nps, 8 * f⟩ l).buffers.flatten.length
    have h2 : (collector_of ⟨nps, 8 * f⟩ l).buffers.flatten.length = l.length := by
      have hcd := congrArg Multiset.card (hflatl l hl)
      rw [Multiset.coe_card, Multiset.coe_card, List.length_map] at hcd
      exact hcd
    rw [(collector_of_spec nps (8 * f) l hnps).2.1, h2]
  have hsize2 : ((inserts.map (collector_of ⟨nps, 8 * f⟩)).map
        LocalCollector.tuple_count).sum * (8 * f) < 2 ^ 48 := by
    rw [htc]
    exact hsize
  obtain ⟨k, data, hk63, hdms, hdlen, hdw, hshift, hstride, hdirlen, hdir0, hdir,
    hstlen, hstor⟩ :=
    build_full_spec nps f _ hnps hf hbuf hwordsc hcnt hpos hsize2
  have hdms2 : Multiset.ofList data
      = Multiset.ofList (inserts.flatten.map (fun kp => Tuple.mk kp.1 kp.2)) := by
    rw [hdms, List.map_map]
    have hcg : ∀ l ∈ inserts, ((fun c => Multiset.ofList c.buffers.flatten)
          ∘ collector_of ⟨nps, 8 * f⟩) l
        = Multiset.ofList (l.map (fun kp => Tuple.mk kp.1 kp.2)) :=
      fun l hl => hflatl l hl
    rw [List.map_congr_left hcg]
    rw [← coe_flatten_map inserts (fun l => l.map (fun kp => Tuple.mk kp.1 kp.2))]
    rw [← List.map_flatten]
  refine ⟨k, data, hk63, hdms2, ?_, hdw, hshift, hstride, hdirlen, hdir0, hdir, ?_, hstor⟩
  · rw [hdlen, htc]
  · rw [hstlen, htc]

theorem probe_build_inserts (nps f key : Nat) (inserts : List (List (Nat × List Nat)))
    (hnps : nps ≤ 64) (hf : 0 < f)
    (hpay : ∀ l ∈ inserts, ∀ kp ∈ l, kp.2.length + 1 = f)
    (hsize : inserts.flatten.length * (8 * f) < 2 ^ 48) :
    Multiset.ofList
        ((build (inserts.map (collector_of ⟨nps, 8 * f⟩)) ⟨nps, 8 * f⟩).probe key)
      = Multiset.ofList ((inserts.flatten.filter (fun kp => kp.1 == key)).map
          (fun kp => kp.1 :: kp.2)) := by
  by_cases h0 : inserts.flatten.length = 0
  · have htc : ((inserts.map (collector_of ⟨nps, 8 * f⟩)).map
        LocalCollector.tuple_count).sum = inserts.flatten.length := by
      rw [List.map_map]
      have h1 : ∀ l ∈ inserts, (LocalCollector.tuple_count ∘ collector_of ⟨nps, 8 * f⟩) l
          = List.length l := by
        intro l _
        exact (collector_of_spec nps (8 * f) l hnps).2.1
      rw [List.map_congr_left h1, List.length_flatten]
    have hflat : inserts.flatten = [] := List.eq_nil_of_length_eq_zero h0
    have hempty : build (inserts.map (collector_of ⟨nps, 8 * f⟩)) ⟨nps, 8 * f⟩
        = UnchainedHashTable.empty (8 * f) := by
      simp only [build]
      rw [if_pos (htc.trans h0)]
    rw [hempty, probe_empty (8 * f) key (by omega), hflat]
    rfl
  · obtain ⟨k, data, hk63, hdms2, hdlen, hdw, hshift, hstride, hdirlen, hdir0, hdir,
      hstlen, hstor⟩ :=
      build_inserts_spec nps f inserts hnps hf hpay hsize h0
    have hprobe := probe_spec_table f k key data _ hf hk63 hshift hstride hdw
      hdir0 hdir hstor
    rw [hprobe]
    have hperm : data.Perm (inserts.flatten.map (fun kp => Tuple.mk kp.1 kp.2)) :=
      Multiset.coe_eq_coe.mp hdms2
    have hperm2 : ((data.filter (fun t => t.key == key)).map Tuple.words).Perm
        (((inserts.flatten.map (fun kp => Tuple.mk kp.1 kp.2)).filter
          (fun t => t.key == key)).map Tuple.words) :=
      (hperm.filter _).map _
    have hlist : ((inserts.flatten.map (fun kp => Tuple.mk kp.1 kp.2)).filter
          (fun t => t.key == key)).map Tuple.words
        = (inserts.flatten.filter (fun kp => kp.1 == key)).map
          (fun kp => kp.1 :: kp.2) := by
      rw [List.filter_map, List.map_map]
      have hfc : ∀ kp ∈ inserts.flatten,
          ((fun t => t.key == key) ∘ (fun kp : Nat × List Nat => Tuple.mk kp.1 kp.2)) kp
            = (fun kp : Nat × List Nat => kp.1 == key) kp := by
        intro kp _
        rfl
      rw [List.filter_congr hfc]
      exact List.map_congr_left (fun kp _ => rfl)
    rw [hlist] at hperm2
    exact Multiset.coe_eq_coe.mpr hperm2

end Sch

namespace Sch

/- ===== Claims: table sizing and directory entries ===== -/

theorem or_low_shiftRight (e t k : Nat) (ht : t < 2 ^ k) :
    (e ||| t) >>> k = e >>> k := by
  apply Nat.eq_of_testBit_eq
  intro j
  rw [Nat.testBit_shiftRight, Nat.testBit_shiftRight, Nat.testBit_or]
  have hbit : t.testBit (k + j) = false :=
    Nat.testBit_lt_two_pow
      (lt_of_lt_of_le ht (Nat.pow_le_pow_right (by omega) (by omega)))
  rw [hbit, Bool.or_false]

/-- Claim C7 counterexample: at n = 57 tuples the computed table size is 64,
which is smaller than 1.125 × 57 = 64.125 (equivalently 8 × 64 < 9 × 57), so
`N ≥ 1.125 × n` fails; the code rounds `n + n / 8` with floor division. -/
theorem C7_not_nine_eighths :
    (compute_table_params 57).1 = 64 ∧
    8 * (compute_table_params 57).1 < 9 * 57 := by
  decide

/-- Claim C7 (amended): for every tuple count n with n + n/8 ≤ 2^63, the
computed directory size N is a power of two with N ≥ 16, N ≥ n + n/8 (floor
division, not 1.125 × n), N ≥ n, and 2^(64 − shift) = N; for n = 0 the result
is N = 16. -/
theorem C7_table_sizing (n : Nat) (h : n + n / 8 ≤ 2 ^ 63) :
    ∃ k, (compute_table_params n).1 = 2 ^ k ∧
      16 ≤ (compute_table_params n).1 ∧
      n + n / 8 ≤ (compute_table_params n).1 ∧
      n ≤ (compute_table_params n).1 ∧
      2 ^ (64 - (compute_table_params n).2) = (compute_table_params n).1 ∧
      (n = 0 → (compute_table_params n).1 = 16) := by
  obtain ⟨k, hk4, hk63, hN1, hN2, hge⟩ := compute_table_params_spec h
  have h16 : 16 ≤ 2 ^ k := le_trans (Nat.le_max_right _ _) hge
  have hnn : n + n / 8 ≤ 2 ^ k := le_trans (Nat.le_max_left _ _) hge
  refine ⟨k, hN1, ?_, ?_, ?_, ?_, ?_⟩
  · rw [hN1]
    exact h16
  · rw [hN1]
    exact hnn
  · rw [hN1]
    omega
  · rw [hN2, hN1]
    exact congrArg (fun m => 2 ^ m) (by omega)
  · intro hn0
    subst hn0
    decide

/-- Witness for C7: the sizing bounds hold at n = 57 (where N = 64 = 2^6). -/
theorem C7_table_sizing_witness :
    ∃ k, (compute_table_params 57).1 = 2 ^ k ∧
      16 ≤ (compute_table_params 57).1 ∧
      57 + 57 / 8 ≤ (compute_table_params 57).1 ∧
      57 ≤ (compute_table_params 57).1 ∧
      2 ^ (64 - (compute_table_params 57).2) = (compute_table_params 57).1 ∧
      (57 = 0 → (compute_table_params 57).1 = 16) :=
  C7_table_sizing 57 (by decide)

/-- Claim C9 counterexample: DirectoryEntry::new truncates to 64 bits, so for
the 64-bit offset 2^48 the round-trip fails: offset() of new(2^48, 0) is 0,
not 2^48. -/
theorem C9_offset_wraps :
    DirectoryEntry.offset (DirectoryEntry.new (2 ^ 48) 0) = 0 ∧
    DirectoryEntry.offset (DirectoryEntry.new (2 ^ 48) 0) ≠ 2 ^ 48 := by
  decide

/-- Claim C9 (amended): for every offset < 2^48 and bloom value < 2^16,
DirectoryEntry::new round-trips through offset() and bloom(); add_offset
preserves bloom() and with_tag preserves offset() for every entry. -/
theorem C9_entry_roundtrip (off bl e d t : Nat) (hoff : off < 2 ^ 48)
    (hbl : bl < 2 ^ 16) :
    DirectoryEntry.offset (DirectoryEntry.new off bl) = off ∧
    DirectoryEntry.bloom (DirectoryEntry.new off bl) = bl ∧
    DirectoryEntry.bloom (DirectoryEntry.add_offset e d) = DirectoryEntry.bloom e ∧
    DirectoryEntry.offset (DirectoryEntry.with_tag e t) = DirectoryEntry.offset e := by
  refine ⟨?_, ?_, ?_, ?_⟩
  · rw [DirectoryEntry.new_eq hoff hbl]
    exact DirectoryEntry.offset_eq hbl
  · rw [DirectoryEntry.new_eq hoff hbl]
    exact DirectoryEntry.bloom_eq hbl
  · show ((e + d <<< 16 % 2 ^ 64) % 2 ^ 64) % 2 ^ 16 = e % 2 ^ 16
    rw [Nat.mod_mod_of_dvd _ (by norm_num : (2 : Nat) ^ 16 ∣ 2 ^ 64)]
    rw [Nat.shiftLeft_eq]
    obtain ⟨m, hm⟩ : (2 : Nat) ^ 16 ∣ (d * 2 ^ 16) % 2 ^ 64 := by
      rw [Nat.dvd_mod_iff (by norm_num : (2 : Nat) ^ 16 ∣ 2 ^ 64)]
      exact ⟨d, by ring⟩
    rw [hm]
    exact Nat.add_mul_mod_self_left e (2 ^ 16) m
  · show (e ||| t % 2 ^ 16) >>> 16 = e >>> 16
    exact or_low_shiftRight e (t % 2 ^ 16) 16 (Nat.mod_lt _ (by norm_num))

/-- Witness for C9: the round-trip and preservation laws at off = 3, bl = 5,
e = 7, d = 11, t = 13. -/
theorem C9_entry_roundtrip_witness :
    DirectoryEntry.offset (DirectoryEntry.new 3 5) = 3 ∧
    DirectoryEntry.bloom (DirectoryEntry.new 3 5) = 5 ∧
    DirectoryEntry.bloom (DirectoryEntry.add_offset 7 11) = DirectoryEntry.bloom 7 ∧
    DirectoryEntry.offset (DirectoryEntry.with_tag 7 13) = DirectoryEntry.offset 7 :=
  C9_entry_roundtrip 3 5 7 11 13 (by decide) (by decide)

end Sch

namespace Nblfq

/- ===== Claims: queue ===== -/

/-- Claim C5: for a queue of capacity C = 2^k (k within the capacity bound),
after exactly C successful enqueues and no dequeues, the next enqueue attempt
returns Err carrying the offered value and leaves the queue state (head, tail,
every cell, every slot) unchanged. -/
theorem C5_full_queue_err (α : Type) (k : Nat) (vs : List α) (v : α) (q0 : Queue α)
    (hk : 2 ^ k ≤ 2 ^ 32 - 1) (hnew : Queue.new α (2 ^ k) = some q0)
    (hlen : vs.length = 2 ^ k) :
    ∃ qC, enqueue_all q0 vs = some qC ∧ enqueue_step qC v = (EnqOut.err v, qC) := by
  have h0 := new_eq_filled α k hk
  rw [hnew] at h0
  have hq0 : q0 = filled_queue α k 0 [] := Option.some.inj h0
  subst hq0
  have hall := enqueue_all_filled k hk vs [] 0 rfl (by omega)
  refine ⟨filled_queue α k (2 ^ k) vs, ?_, ?_⟩
  · rw [hall]
    have hl : 0 + vs.length = 2 ^ k := by omega
    rw [hl, List.nil_append]
  · exact enqueue_step_full k vs v hk

/-- Witness for C5: a queue of capacity 2^0 = 1, one successful enqueue of 42,
then an enqueue of 7 fails with Err 7 and the state is unchanged. -/
theorem C5_full_queue_err_witness :
    ∃ qC, enqueue_all ({ cells := [Cell.pack EMPTY 0], slots := [none],
                         head := 0, tail := 0, capacity := 1, mask := 0 } : Queue Nat)
        [42] = some qC ∧
      enqueue_step qC 7 = (EnqOut.err 7, qC) :=
  C5_full_queue_err Nat 0 [42] 7
    { cells := [Cell.pack EMPTY 0], slots := [none],
      head := 0, tail := 0, capacity := 1, mask := 0 }
    (by decide) (by decide) (by decide)

/-- Claim C6 (code bug): the spec says the lap compared against the cell
counter is pos / C on the full 64-bit position, but the source computes
`(pos as u32) / (capacity as u32)`, truncating pos to 32 bits first.  At
pos = 2^32 with C = 16 the code's lap is 0 while pos / C = 2^28. -/
theorem C6_lap_truncated :
    Queue.lap 16 (2 ^ 32) = 0 ∧ 2 ^ 32 / 16 = 2 ^ 28 ∧
    Queue.lap 16 (2 ^ 32) ≠ 2 ^ 32 / 16 := by
  decide

/-- Claim C8 counterexample: capacity 2^32 is a power of two not exceeding
2^32, yet Queue::new rejects it (the assert is `capacity <= u32::MAX`, i.e.
capacity ≤ 2^32 − 1). -/
theorem C8_pow32_rejected :
    Queue.new Nat (2 ^ 32) = none ∧ is_power_of_two (2 ^ 32) = true := by
  decide

/-- Claim C8 (amended): Queue::new(capacity) succeeds exactly when capacity is
a power of two and at most u32::MAX = 2^32 − 1 (not 2^32); otherwise it
panics. -/
theorem C8_new_succeeds_iff (α : Type) (c : Nat) (hc : c < 2 ^ 64) :
    (∃ q, Queue.new α c = some q) ↔ ((∃ j, c = 2 ^ j) ∧ c ≤ 2 ^ 32 - 1) := by
  unfold Queue.new
  by_cases h : is_power_of_two c = true ∧ c ≤ 2 ^ 32 - 1
  · rw [if_pos h]
    constructor
    · intro _
      exact ⟨(is_power_of_two_iff hc).mp h.1, h.2⟩
    · intro _
      exact ⟨_, rfl⟩
  · rw [if_neg h]
    constructor
    · intro ⟨q, hq⟩
      exact absurd hq (by simp)
    · intro ⟨hpow, hle⟩
      exact absurd ⟨(is_power_of_two_iff hc).mpr hpow, hle⟩ h

/-- Witness for C8: at capacity 16 the construction succeeds and 16 is a power
of two below 2^32. -/
theorem C8_new_succeeds_iff_witness :
    (∃ q, Queue.new Nat 16 = some q) ↔ ((∃ j, (16 : Nat) = 2 ^ j) ∧ (16 : Nat) ≤ 2 ^ 32 - 1) :=
  C8_new_succeeds_iff Nat 16 (by decide)

/-- Claim C10: in every reachable queue state, a successful enqueue stores
into the claimed cell the packed pair (head & mask, counter); the published
index equals head & mask, which is at most mask = capacity − 1 < u32::MAX and
therefore never the reserved EMPTY value. -/
theorem C10_no_empty_index_store (α : Type) (q : Queue α) (v : α) (q' : Queue α)
    (hr : Reachable q) (hok : enqueue_step q v = (EnqOut.ok, q')) :
    ∃ ctr, q'.cells = q.cells.set (q.head &&& q.mask)
        (Cell.pack (q.head &&& q.mask) ctr) ∧
      (Cell.unpack (Cell.pack (q.head &&& q.mask) ctr)).1 = q.head &&& q.mask ∧
      q.head &&& q.mask ≠ EMPTY ∧
      q.mask < EMPTY := by
  obtain ⟨hcap, hcap32, hmask⟩ := reachable_valid hr
  obtain ⟨ctr, hctr, hcells⟩ := enqueue_step_ok_cells hok
  have hci : q.head &&& q.mask ≤ q.mask := Nat.and_le_right
  have hcilt : q.head &&& q.mask < 2 ^ 32 := by omega
  refine ⟨ctr, hcells, ?_, ?_, ?_⟩
  · rw [Cell.unpack_pack hcilt hctr]
  · show ¬ q.head &&& q.mask = 2 ^ 32 - 1
    omega
  · show q.mask < 2 ^ 32 - 1
    omega

/-- Witness for C10: one enqueue of 5 into a fresh queue of capacity 1 stores
pack(0, 0); the published index 0 is not EMPTY. -/
theorem C10_no_empty_index_store_witness :
    ∃ ctr, [Cell.pack 0 0] = [Cell.pack EMPTY 0].set (0 &&& 0) (Cell.pack (0 &&& 0) ctr) ∧
      (Cell.unpack (Cell.pack (0 &&& 0) ctr)).1 = 0 &&& 0 ∧
      (0 : Nat) &&& 0 ≠ EMPTY ∧
      (0 : Nat) < EMPTY :=
  C10_no_empty_index_store Nat
    { cells := [Cell.pack EMPTY 0], slots := [none],
      head := 0, tail := 0, capacity := 1, mask := 0 }
    5
    { cells := [Cell.pack 0 0], slots := [some 5],
      head := 1, tail := 0, capacity := 1, mask := 0 }
    (Reachable.init 1 _ (by decide)) (by decide)

end Nblfq

namespace Sch

/- ===== Claims: hash table build and probe ===== -/

/-- Claim C1: for every multiset of tuples inserted through
LocalCollector::insert (split over any number of collectors) and built with
build, probe(key) hands the callback exactly one slice per inserted tuple
whose key equals the probe key — the slice being the key zero-extended to u64
followed by the payload words — and zero slices for a key never inserted
(tuples are stride = 8·f bytes, total data below the 48-bit offset range). -/
theorem C1_probe_matches (nps f key : Nat) (inserts : List (List (Nat × List Nat)))
    (hnps : nps ≤ 64) (hf : 0 < f)
    (hpay : ∀ l ∈ inserts, ∀ kp ∈ l, kp.2.length + 1 = f)
    (hsize : inserts.flatten.length * (8 * f) < 2 ^ 48) :
    Multiset.ofList
        ((build (inserts.map (collector_of ⟨nps, 8 * f⟩)) ⟨nps, 8 * f⟩).probe key)
      = Multiset.ofList ((inserts.flatten.filter (fun kp => kp.1 == key)).map
          (fun kp => kp.1 :: kp.2)) :=
  probe_build_inserts nps f key inserts hnps hf hpay hsize

/-- Witness for C1: two collectors holding (5,[7]) and (9,[1]); probing 5
yields exactly the slice [5, 7]. -/
theorem C1_probe_matches_witness :
    Multiset.ofList
        ((build ([[(5, [7])], [(9, [1])]].map (collector_of ⟨1, 16⟩)) ⟨1, 16⟩).probe 5)
      = Multiset.ofList ((([(5, [7]), (9, [1])] : List (Nat × List Nat)).filter
          (fun kp => kp.1 == 5)).map (fun kp => kp.1 :: kp.2)) :=
  C1_probe_matches 1 2 5 [[(5, [7])], [(9, [1])]]
    (by decide) (by decide) (by decide) (by decide)

/-- Claim C3: building from K collectors (the tuples split arbitrarily among
them) and building from one collector holding all the tuples give tables with
identical probe results: for every probe key the same multiset of slices is
handed to the callback. -/
theorem C3_k_collectors_eq_one (nps f key : Nat)
    (inserts : List (List (Nat × List Nat)))
    (hnps : nps ≤ 64) (hf : 0 < f)
    (hpay : ∀ l ∈ inserts, ∀ kp ∈ l, kp.2.length + 1 = f)
    (hsize : inserts.flatten.length * (8 * f) < 2 ^ 48) :
    Multiset.ofList
        ((build (inserts.map (collector_of ⟨nps, 8 * f⟩)) ⟨nps, 8 * f⟩).probe key)
      = Multiset.ofList
        ((build [collector_of ⟨nps, 8 * f⟩ inserts.flatten] ⟨nps, 8 * f⟩).probe key) := by
  have h1 := probe_build_inserts nps f key inserts hnps hf hpay hsize
  have hpay2 : ∀ l ∈ [inserts.flatten], ∀ kp ∈ l, kp.2.length + 1 = f := by
    intro l hl kp hkp
    rw [List.mem_singleton] at hl
    subst hl
    obtain ⟨l', hl', hkp'⟩ := List.mem_flatten.mp hkp
    exact hpay l' hl' kp hkp'
  have hflat1 : ([inserts.flatten] : List (List (Nat × List Nat))).flatten
      = inserts.flatten := by
    show inserts.flatten ++ [] = inserts.flatten
    rw [List.append_nil]
  have hsize2 : ([inserts.flatten] : List (List (Nat × List Nat))).flatten.length
      * (8 * f) < 2 ^ 48 := by
    rw [hflat1]
    exact hsize
  have h2 := probe_build_inserts nps f key [inserts.flatten] hnps hf hpay2 hsize2
  rw [hflat1] at h2
  rw [h1, ← h2]
  rfl

/-- Witness for C3: the two-collector build of (5,[7]) and (9,[1]) probes
identically to the one-collector build. -/
theorem C3_k_collectors_eq_one_witness :
    Multiset.ofList
        ((build ([[(5, [7])], [(9, [1])]].map (collector_of ⟨1, 16⟩)) ⟨1, 16⟩).probe 9)
      = Multiset.ofList
        ((build [collector_of ⟨1, 16⟩ [(5, [7]), (9, [1])]] ⟨1, 16⟩).probe 9) :=
  C3_k_collectors_eq_one 1 2 9 [[(5, [7])], [(9, [1])]]
    (by decide) (by decide) (by decide) (by decide)

/-- Claim C2: after build, for every key that was inserted into any collector,
the 16-bit bloom field of directory[slot(key)+1] has all bits of the key's
tag BLOOM_TAGS[filter(key) >> 21] set, and bloom_check(key) returns true. -/
theorem C2_bloom_superset (nps f kk : Nat) (pay : List Nat)
    (inserts : List (List (Nat × List Nat)))
    (hnps : nps ≤ 64) (hf : 0 < f)
    (hpay : ∀ l ∈ inserts, ∀ kp ∈ l, kp.2.length + 1 = f)
    (hsize : inserts.flatten.length * (8 * f) < 2 ^ 48)
    (hmem : (kk, pay) ∈ inserts.flatten) :
    DirectoryEntry.bloom
        ((build (inserts.map (collector_of ⟨nps, 8 * f⟩)) ⟨nps, 8 * f⟩).directory.getD
          ((HashPair.hash kk).slot >>>
            (build (inserts.map (collector_of ⟨nps, 8 * f⟩)) ⟨nps, 8 * f⟩).shift + 1) 0)
        &&& bloom_get_tag (HashPair.hash kk).filter
      = bloom_get_tag (HashPair.hash kk).filter ∧
    (build (inserts.map (collector_of ⟨nps, 8 * f⟩)) ⟨nps, 8 * f⟩).bloom_check kk
      = true := by
  have h0 : inserts.flatten.length ≠ 0 := by
    have hpos := List.length_pos.mpr (List.ne_nil_of_mem hmem)
    omega
  obtain ⟨k, data, hk63, hdms2, hdlen, hdw, hshift, hstride, hdirlen, hdir0, hdir,
    hstlen, hstor⟩ :=
    build_inserts_spec nps f inserts hnps hf hpay hsize h0
  have hsl : (HashPair.hash kk).slot >>> (64 - k) < 2 ^ k := hash_slot_lt k kk (by omega)
  have hbl := bloom_or_lt (64 - k) data ((HashPair.hash kk).slot >>> (64 - k))
  have htmem : Tuple.mk kk pay ∈ data := by
    have h1 : Tuple.mk kk pay ∈ inserts.flatten.map (fun kp => Tuple.mk kp.1 kp.2) :=
      List.mem_map.mpr ⟨(kk, pay), hmem, rfl⟩
    have h2 : Tuple.mk kk pay
        ∈ Multiset.ofList (inserts.flatten.map (fun kp => Tuple.mk kp.1 kp.2)) :=
      Multiset.mem_coe.mpr h1
    rw [← hdms2] at h2
    exact Multiset.mem_coe.mp h2
  have habs : bloom_or (64 - k) data ((HashPair.hash kk).slot >>> (64 - k))
      &&& bloom_get_tag (HashPair.hash kk).filter
      = bloom_get_tag (HashPair.hash kk).filter := by
    refine foldl_or_absorb _ 0 _ (Or.inl ?_)
    refine List.mem_map.mpr ⟨Tuple.mk kk pay, ?_, rfl⟩
    refine List.mem_filter.mpr ⟨htmem, ?_⟩
    exact beq_self_eq_true _
  constructor
  · rw [hshift, hdir _ hsl, DirectoryEntry.bloom_eq hbl]
    exact habs
  · show bloom_check_tag (bloom_get_tag (HashPair.hash kk).filter)
        (DirectoryEntry.bloom
          ((build (inserts.map (collector_of ⟨nps, 8 * f⟩)) ⟨nps, 8 * f⟩).directory.getD
            ((HashPair.hash kk).slot >>>
              (build (inserts.map (collector_of ⟨nps, 8 * f⟩)) ⟨nps, 8 * f⟩).shift + 1) 0))
      = true
    rw [hshift, hdir _ hsl, DirectoryEntry.bloom_eq hbl]
    show (bloom_or (64 - k) data ((HashPair.hash kk).slot >>> (64 - k))
        &&& bloom_get_tag (HashPair.hash kk).filter
        == bloom_get_tag (HashPair.hash kk).filter) = true
    rw [habs]
    exact beq_self_eq_true _

set_option maxRecDepth 8192 in
/-- Witness for C2: with tuples (5,[7]) and (9,[1]) over two collectors, the
bloom field at key 9's directory slot covers 9's tag and bloom_check 9 holds. -/
theorem C2_bloom_superset_witness :
    DirectoryEntry.bloom
        ((build ([[(5, [7])], [(9, [1])]].map (collector_of ⟨1, 16⟩)) ⟨1, 16⟩).directory.getD
          ((HashPair.hash 9).slot >>>
            (build ([[(5, [7])], [(9, [1])]].map (collector_of ⟨1, 16⟩)) ⟨1, 16⟩).shift + 1) 0)
        &&& bloom_get_tag (HashPair.hash 9).filter
      = bloom_get_tag (HashPair.hash 9).filter ∧
    (build ([[(5, [7])], [(9, [1])]].map (collector_of ⟨1, 16⟩)) ⟨1, 16⟩).bloom_check 9
      = true :=
  C2_bloom_superset 1 2 9 [1] [[(5, [7])], [(9, [1])]]
    (by decide) (by decide) (by decide) (by decide) (by decide)

/-- Claim C4: after build with n inserted tuples of stride = 8·f bytes, the
directory (N + 1 entries for some N) satisfies: entry 0 has offset 0; offsets
are monotonically non-decreasing; every offset is a multiple of the stride;
and the offset differences over all N slots sum to n × stride. -/
theorem C4_directory_invariants (nps f : Nat) (inserts : List (List (Nat × List Nat)))
    (hnps : nps ≤ 64) (hf : 0 < f)
    (hpay : ∀ l ∈ inserts, ∀ kp ∈ l, kp.2.length + 1 = f)
    (hsize : inserts.flatten.length * (8 * f) < 2 ^ 48) :
    ∃ N, (build (inserts.map (collector_of ⟨nps, 8 * f⟩)) ⟨nps, 8 * f⟩).directory.length
        = N + 1 ∧
      DirectoryEntry.offset
        ((build (inserts.map (collector_of ⟨nps, 8 * f⟩)) ⟨nps, 8 * f⟩).directory.getD 0 0)
        = 0 ∧
      (∀ s, s < N → DirectoryEntry.offset
          ((build (inserts.map (collector_of ⟨nps, 8 * f⟩)) ⟨nps, 8 * f⟩).directory.getD s 0)
        ≤ DirectoryEntry.offset
          ((build (inserts.map (collector_of ⟨nps, 8 * f⟩))
            ⟨nps, 8 * f⟩).directory.getD (s + 1) 0)) ∧
      (∀ s, s ≤ N → DirectoryEntry.offset
          ((build (inserts.map (collector_of ⟨nps, 8 * f⟩)) ⟨nps, 8 * f⟩).directory.getD s 0)
          % (8 * f) = 0) ∧
      (∑ s in Finset.range N,
          (DirectoryEntry.offset
            ((build (inserts.map (collector_of ⟨nps, 8 * f⟩))
              ⟨nps, 8 * f⟩).directory.getD (s + 1) 0)
          - DirectoryEntry.offset
            ((build (inserts.map (collector_of ⟨nps, 8 * f⟩))
              ⟨nps, 8 * f⟩).directory.getD s 0)))
        = inserts.flatten.length * (8 * f) := by
  by_cases h0 : inserts.flatten.length = 0
  · have htc : ((inserts.map (collector_of ⟨nps, 8 * f⟩)).map
        LocalCollector.tuple_count).sum = inserts.flatten.length := by
      rw [List.map_map]
      have h1 : ∀ l ∈ inserts, (LocalCollector.tuple_count ∘ collector_of ⟨nps, 8 * f⟩) l
          = List.length l := by
        intro l _
        exact (collector_of_spec nps (8 * f) l hnps).2.1
      rw [List.map_congr_left h1, List.length_flatten]
    have hempty : build (inserts.map (collector_of ⟨nps, 8 * f⟩)) ⟨nps, 8 * f⟩
        = UnchainedHashTable.empty (8 * f) := by
      simp only [build]
      rw [if_pos (htc.trans h0)]
    have hget : ∀ i : Nat, ((List.replicate ((compute_table_params 0).1 + 1)
        DirectoryEntry.EMPTY).getD i 0) = 0 := by
      intro i
      rw [Nblfq.getD_replicate]
      split
      · rfl
      · rfl
    have hoffz : ∀ s : Nat, DirectoryEntry.offset
        ((build (inserts.map (collector_of ⟨nps, 8 * f⟩)) ⟨nps, 8 * f⟩).directory.getD s 0)
        = 0 := by
      intro s
      rw [hempty]
      show DirectoryEntry.offset ((List.replicate ((compute_table_params 0).1 + 1)
        DirectoryEntry.EMPTY).getD s 0) = 0
      rw [hget s]
      rfl
    refine ⟨16, ?_, hoffz 0, ?_, ?_, ?_⟩
    · rw [hempty]
      show (List.replicate ((compute_table_params 0).1 + 1) DirectoryEntry.EMPTY).length
          = 16 + 1
      rw [List.length_replicate]
      decide
    · intro s _
      rw [hoffz s, hoffz (s + 1)]
    · intro s _
      rw [hoffz s]
      exact Nat.zero_mod _
    · rw [h0, Nat.zero_mul]
      refine Finset.sum_eq_zero ?_
      intro s _
      rw [hoffz s, hoffz (s + 1)]
      exact Nat.sub_self 0
  obtain ⟨k, data, hk63, hdms2, hdlen, hdw, hshift, hstride, hdirlen, hdir0, hdir,
    hstlen, hstor⟩ :=
    build_inserts_spec nps f inserts hnps hf hpay hsize h0
  have hoff0 : DirectoryEntry.offset
      ((build (inserts.map (collector_of ⟨nps, 8 * f⟩)) ⟨nps, 8 * f⟩).directory.getD 0 0)
      = 0 := by
    rw [hdir0]
    rfl
  have hoffall : ∀ s, s ≤ 2 ^ k → DirectoryEntry.offset
      ((build (inserts.map (collector_of ⟨nps, 8 * f⟩)) ⟨nps, 8 * f⟩).directory.getD s 0)
      = count_below (64 - k) data s * (8 * f) := by
    intro s hs
    cases s with
    | zero =>
      rw [hoff0, count_below_zero, Nat.zero_mul]
    | succ s' =>
      rw [hdir s' (by omega)]
      exact DirectoryEntry.offset_eq (bloom_or_lt _ _ _)
  refine ⟨2 ^ k, hdirlen, hoff0, ?_, ?_, ?_⟩
  · intro s hs
    rw [hoffall s (by omega), hoffall (s + 1) (by omega)]
    exact Nat.mul_le_mul_right _ (count_below_mono _ _ (by omega))
  · intro s hs
    rw [hoffall s hs]
    exact Nat.mul_mod_left _ _
  · have htel : ∀ m, m ≤ 2 ^ k → (∑ s in Finset.range m,
        (DirectoryEntry.offset
          ((build (inserts.map (collector_of ⟨nps, 8 * f⟩))
            ⟨nps, 8 * f⟩).directory.getD (s + 1) 0)
        - DirectoryEntry.offset
          ((build (inserts.map (collector_of ⟨nps, 8 * f⟩))
            ⟨nps, 8 * f⟩).directory.getD s 0)))
        = count_below (64 - k) data m * (8 * f) := by
      intro m
      induction m with
      | zero =>
        intro _
        rw [Finset.sum_range_zero, count_below_zero, Nat.zero_mul]
      | succ m ihm =>
        intro hm
        rw [Finset.sum_range_succ, ihm (by omega), hoffall m (by omega),
          hoffall (m + 1) (by omega)]
        have hmono := Nat.mul_le_mul_right (8 * f) (count_below_mono (64 - k) data
          (show m ≤ m + 1 by omega))
        omega
    rw [htel (2 ^ k) (Nat.le_refl _)]
    rw [count_below_total (64 - k) data (2 ^ k)
      (fun t _ => slot_of_lt k t (by omega)), hdlen]

set_option maxRecDepth 8192 in
/-- Witness for C4: the directory invariants at the two-collector build of
(5,[7]) and (9,[1]). -/
theorem C4_directory_invariants_witness :
    ∃ N, (build ([[(5, [7])], [(9, [1])]].map (collector_of ⟨1, 16⟩)) ⟨1, 16⟩).directory.length
        = N + 1 ∧
      DirectoryEntry.offset
        ((build ([[(5, [7])], [(9, [1])]].map (collector_of ⟨1, 16⟩)) ⟨1, 16⟩).directory.getD 0 0)
        = 0 ∧
      (∀ s, s < N → DirectoryEntry.offset
          ((build ([[(5, [7])], [(9, [1])]].map (collector_of ⟨1, 16⟩)) ⟨1, 16⟩).directory.getD s 0)
        ≤ DirectoryEntry.offset
          ((build ([[(5, [7])], [(9, [1])]].map (collector_of ⟨1, 16⟩))
            ⟨1, 16⟩).directory.getD (s + 1) 0)) ∧
      (∀ s, s ≤ N → DirectoryEntry.offset
          ((build ([[(5, [7])], [(9, [1])]].map (collector_of ⟨1, 16⟩)) ⟨1, 16⟩).directory.getD s 0)
          % 16 = 0) ∧
      (∑ s in Finset.range N,
          (DirectoryEntry.offset
            ((build ([[(5, [7])], [(9, [1])]].map (collector_of ⟨1, 16⟩))
              ⟨1, 16⟩).directory.getD (s + 1) 0)
          - DirectoryEntry.offset
            ((build ([[(5, [7])], [(9, [1])]].map (collector_of ⟨1, 16⟩))
              ⟨1, 16⟩).directory.getD s 0)))
        = 2 * 16 :=
  C4_directory_invariants 1 2 [[(5, [7])], [(9, [1])]]
    (by decide) (by decide) (by decide) (by decide)

end Sch
